import Mathlib

/-!
# Verification of the Dartino LLVM code generator (`src/vm/codegen_llvm.cc`)

A shallow embedding, in Lean 4, of the parts of the ahead-of-time bytecode
compiler relevant to the checked properties: the heap materializer
(`HeapBuilder`), the stack-height explorer (`BasicBlocksExplorer`), the
per-bytecode lowering contract (`BasicBlockBuilder`), the type environment
(`World`), and the late GC-intrinsic lowering pass (`RewriteGCIntrinsics`).

Machine words are embedded as `Nat`/`Int` with explicit reductions modulo
`2 ^ 32` / `2 ^ 64` where overflow matters.  Stateful C++ code (the LLVM
module, the materialization maps) is embedded as explicit state passing on a
`World` record.  Fallible or fuel-bounded computations return `Option`.
-/

namespace Codegen

/-! ## Word arithmetic helpers -/

/-- Two's-complement bit pattern of an integer in a 64-bit word. -/
def toBits64 (n : Int) : Nat := (n % (2 ^ 64 : Int)).toNat

/-- Signed reading of a 64-bit pattern. -/
def ofBits64 (p : Nat) : Int := if p < 2 ^ 63 then (p : Int) else (p : Int) - 2 ^ 64

/-- Truncation of an integer to its unsigned 32-bit pattern
(the `static_cast<uint32>` conversions in the source). -/
def u32 (v : Int) : Int := v % (2 ^ 32 : Int)

/-! ## Smi encode/decode lowering

`RewriteGCIntrinsics::tryRewrite` (codegen_llvm.cc:2235-2261) lowers the
`smitoint64` intrinsic to a pointer-to-int cast followed by an arithmetic
right shift by one, and the `inttosmi`/`inttosmi64` intrinsics to "tag with
zero by adding to itself" followed by an int-to-pointer cast.  Below, both are
embedded as functions on 64-bit bit patterns. -/

/-- Lowered `inttosmi64`: the value added to itself (shift left by one with
low bit clear), as a 64-bit machine add. -/
def intToSmi64 (x : Nat) : Nat := (x + x) % 2 ^ 64

/-- Lowered `smitoint64`: arithmetic shift right by one of the 64-bit
pattern (the sign bit is replicated into the vacated top bit). -/
def smiToInt64 (p : Nat) : Nat := p / 2 + (if 2 ^ 63 ≤ p then 2 ^ 63 else 0)

/-! ## The type environment (`World::World`, codegen_llvm.cc:1851-1914)

LLVM types, with the two address spaces: 0 for read-only statics, 1 for the
GC-scanned space. -/

inductive Ty where
  | i1 | i8 | i32 | i64 | flt
  | ptr (elem : Ty) (addrspace : Nat)
  | strct (nm : String)
  | arr (elem : Ty) (n : Nat)
  | fn (params : List Ty) (ret : Ty)

/-- `int8_ptr_type = PointerType::get(int8_type, 0)`. -/
def int8PtrTy : Ty := Ty.ptr Ty.i8 0

/-- `object_ptr_type = PointerType::get(int8_type, 1)` — the tagged object
reference in the GC-scanned address space 1. -/
def objectPtrTy : Ty := Ty.ptr Ty.i8 1

/-- `object_ptr_aspace0_type = PointerType::get(int8_type, 0)`. -/
def objectPtrAspace0Ty : Ty := Ty.ptr Ty.i8 0

/-- `object_ptr_ptr_type = PointerType::get(object_ptr_type, 1)`. -/
def objectPtrPtrTy : Ty := Ty.ptr objectPtrTy 1

/-- `object_ptr_aspace0_ptr_aspace0_type = PointerType::get(object_ptr_aspace0_type, 0)`. -/
def objectPtrAspace0PtrAspace0Ty : Ty := Ty.ptr objectPtrAspace0Ty 0

/-- `object_ptr_ptr_unsafe_type = PointerType::get(object_ptr_type, 0)`
(codegen_llvm.cc:1873) — an address-space-0 pointer to an address-space-1
object pointer. -/
def objectPtrPtrUnsafeTy : Ty := Ty.ptr objectPtrTy 0

/-- `process_ptr_type = int8_ptr_type` (codegen_llvm.cc:1908). -/
def processPtrTy : Ty := int8PtrTy

/-- Named struct types created in `World::World`. -/
def heapObjectTy : Ty := Ty.strct "HeapType"
def classTy : Ty := Ty.strct "ClassType"
def functionStructTy : Ty := Ty.strct "FunctionType"
def arrayHeaderTy : Ty := Ty.strct "ArrayType"
def oneByteStringTy : Ty := Ty.strct "OneByteString"
def initializerTy : Ty := Ty.strct "InitializerType"
def instanceStructTy : Ty := Ty.strct "InstanceType"
def largeIntegerTy : Ty := Ty.strct "LargeIntegerType"
def doubleTy : Ty := Ty.strct "DoubleType"
def dteTy : Ty := Ty.strct "DispatchTableEntry"

/-- `class_ptr_type = PointerType::get(class_type, 0)`. -/
def classPtrTy : Ty := Ty.ptr classTy 0

/-- `array_header_ptr = PointerType::get(array_header, 0)`. -/
def arrayHeaderPtrTy : Ty := Ty.ptr arrayHeaderTy 0

/-- `World::ObjectArrayType(n, entry_type, name)` (codegen_llvm.cc:2012-2021):
a struct named `<name>__<n>` whose body is the array header followed by `n`
entries.  Only the name participates in LLVM struct identity. -/
def objectArrayType (n : Nat) (nm : String) : Ty :=
  Ty.strct (nm ++ "__" ++ toString n)

/-- `World::InstanceType(n)` (codegen_llvm.cc:2023-2032). -/
def instanceTypeN (n : Nat) : Ty := Ty.strct ("Instance__" ++ toString n)

/-- `World::OneByteStringType(n)` (codegen_llvm.cc:2038-2046). -/
def oneByteStringTypeN (n : Nat) : Ty := Ty.strct ("OneByteString__" ++ toString n)

/-- `World::FunctionType(arity)` (codegen_llvm.cc:2048-2052): a vector of
`1 + arity` argument types, all `object_ptr_type`, whose slot 0 is then
overwritten with `process_ptr_type`; the result type is `object_ptr_type`. -/
def functionType (arity : Nat) : Ty :=
  Ty.fn ((List.replicate (1 + arity) objectPtrTy).set 0 processPtrTy) objectPtrTy

/-! ## Bytecodes

The bytecodes whose lowering `BasicBlocksExplorer::Build`
(codegen_llvm.cc:1205-1602) supports (the remaining opcodes hit the
`default:` trap and abort).  Immediate operands that influence the stack
effect are carried as parameters; `invokeMethod` carries the argument count
already decoded from the selector's arity field. -/

inductive CmpKind where
  | ceq | cge | cgt | cle | clt
deriving DecidableEq

inductive Opcode where
  | loadLocal (n : Nat)
  | loadField (n : Nat)
  | loadLiteral (v : Int)
  | loadLiteralNull
  | loadLiteralTrue
  | loadLiteralFalse
  | loadConst
  | loadBoxed (n : Nat)
  | storeLocal (n : Nat)
  | storeField (n : Nat)
  | storeBoxed (n : Nat)
  | branchWide (delta : Int)
  | branchBack (delta : Nat)
  | branchBackWide (delta : Int)
  | popAndBranchWide (n : Nat) (delta : Int)
  | popAndBranchBackWide (n : Nat) (delta : Int)
  | branchIfTrueWide (delta : Int)
  | branchIfFalseWide (delta : Int)
  | branchBackIfTrue (delta : Nat)
  | branchBackIfFalse (delta : Nat)
  | branchBackIfTrueWide (delta : Int)
  | branchBackIfFalseWide (delta : Int)
  | pop
  | drop (n : Nat)
  | ret
  | retNull
  | stackOverflowCheck
  | identical
  | identicalNonNumeric
  | invokeNative (arity : Nat) (nid : Nat)
  | invokeDetachableNative (arity : Nat) (nid : Nat)
  | allocate (fields : Nat)
  | allocateImmutable (fields : Nat)
  | allocateBoxed
  | negate
  | invokeCompare (c : CmpKind) (sel : Int)
  | invokeAdd (sel : Int)
  | invokeSub (sel : Int)
  | invokeMethod (argc : Nat)
  | invokeStatic (arity : Nat)
  | invokeFactory (arity : Nat)
  | invokeTest
  | invokeTestNoSuchMethod
  | enterNoSuchMethod
  | loadStatic
  | loadStaticInit
  | storeStatic
  | processYield
  | methodEnd
deriving DecidableEq

/-- The per-opcode stack delta used by the stack-height explorer: the
`StackDiff` function (codegen_llvm.cc:28-86).  The variable-delta opcodes are
taken from its `switch`; the remaining opcodes use the fixed per-opcode
table `Bytecode::StackDiff`.

Modelled from the spec: the fixed table lives in `src/shared/bytecodes.h`,
which is not part of this repository snapshot; §4.4/§4.5.2 of the spec fix
those deltas as the net push−pop effect of each opcode's lowering contract,
and the values below follow that contract. -/
def stackDiff : Opcode → Int
  | .loadLocal _ => 1
  | .loadField _ => 0
  | .loadLiteral _ => 1
  | .loadLiteralNull => 1
  | .loadLiteralTrue => 1
  | .loadLiteralFalse => 1
  | .loadConst => 1
  | .loadBoxed _ => 1
  | .storeLocal _ => 0
  | .storeField _ => -1
  | .storeBoxed _ => 0
  | .branchWide _ => 0
  | .branchBack _ => 0
  | .branchBackWide _ => 0
  -- `case kPopAndBranchBackWide: case kPopAndBranchWide: return -*(bcp + 1);`
  -- (codegen_llvm.cc:71-74)
  | .popAndBranchWide n _ => -(n : Int)
  | .popAndBranchBackWide n _ => -(n : Int)
  | .branchIfTrueWide _ => -1
  | .branchIfFalseWide _ => -1
  | .branchBackIfTrue _ => -1
  | .branchBackIfFalse _ => -1
  | .branchBackIfTrueWide _ => -1
  | .branchBackIfFalseWide _ => -1
  | .pop => -1
  -- `case kDrop: return -items;` (codegen_llvm.cc:52-56)
  | .drop n => -(n : Int)
  | .ret => -1
  | .retNull => 0
  | .stackOverflowCheck => 0
  | .identical => -1
  | .identicalNonNumeric => -1
  | .invokeNative _ _ => 1
  | .invokeDetachableNative _ _ => 1
  -- `case kAllocateImmutable: case kAllocate: return 1 - fields;`
  -- (codegen_llvm.cc:57-62)
  | .allocate fields => 1 - (fields : Int)
  | .allocateImmutable fields => 1 - (fields : Int)
  | .allocateBoxed => 0
  | .negate => 0
  | .invokeCompare _ _ => -1
  | .invokeAdd _ => -1
  | .invokeSub _ => -1
  -- `case kInvokeMethod: arity = decode(selector) + 1; return 1 - arity;`
  -- (codegen_llvm.cc:34-40)
  | .invokeMethod argc => -(argc : Int)
  -- `case kInvokeFactory: case kInvokeStatic: return 1 - arity;`
  -- (codegen_llvm.cc:47-51)
  | .invokeStatic arity => 1 - (arity : Int)
  | .invokeFactory arity => 1 - (arity : Int)
  | .invokeTest => 0
  | .invokeTestNoSuchMethod => 0
  -- `case kEnterNoSuchMethod: return 80;` (codegen_llvm.cc:63-66)
  | .enterNoSuchMethod => 80
  | .loadStatic => 1
  | .loadStaticInit => 1
  | .storeStatic => 0
  | .processYield => 0
  | .methodEnd => 0

/-- The net number of `push` minus `pop` operations the method lowerer
performs for each opcode, read off the `Do*` method each `Build` case calls
(`BasicBlockBuilder`, codegen_llvm.cc:633-1073 as dispatched from
codegen_llvm.cc:1234-1591):

* `DoLoadLocal`, `DoLoadInteger`, `DoLoadConstant`, `DoLoadBoxed`,
  `DoLoadStatic`: one `push`;
* `DoLoadField`: `pop` then `push`; `DoStoreField`: two `pop`s, one `push`;
* `DoStoreLocal`, `DoStoreBoxed`, `DoStoreStatic`: slot reads/writes only;
* `DoDrop(n)`: `n` `pop`s; `kPop` lowers to `DoDrop(1)`;
* `DoReturn`: one `pop`; `DoReturnNull`: none;
* `DoIdentical`: two `pop`s, one `push`;
* `DoInvokeNative`: reads the argument slots in place and `push`es the
  failure object (codegen_llvm.cc:832-864);
* `DoAllocate(fields)`: `fields` `pop`s, one `push`; `DoAllocateBoxed`:
  one `pop`, one `push`;
* `DoNegate`, `DoInvokeTest`: `pop` then `push`;
* `DoInvokeSmiOperation`: two `pop`s, one `push` of the join phi;
* `DoInvokeMethod(argc)`: `argc + 1` `pop`s, one `push`; `DoCall(arity)`:
  `arity` `pop`s, one `push`;
* `kInvokeTestNoSuchMethod`: `DoDrop(1)` then `DoLoadConstant(false)`;
* `DoEnterNSM`: six `push(Null)` (codegen_llvm.cc:768-776);
* branches: `DoBranch` none, `DoBranchIf`/`DoBranchIfFalse` one `pop`,
  `kPopAndBranch*Wide` lowers to `DoDrop(n)` then `DoBranch`. -/
def lowerNet : Opcode → Int
  | .loadLocal _ => 1
  | .loadField _ => 0
  | .loadLiteral _ => 1
  | .loadLiteralNull => 1
  | .loadLiteralTrue => 1
  | .loadLiteralFalse => 1
  | .loadConst => 1
  | .loadBoxed _ => 1
  | .storeLocal _ => 0
  | .storeField _ => -1
  | .storeBoxed _ => 0
  | .branchWide _ => 0
  | .branchBack _ => 0
  | .branchBackWide _ => 0
  | .popAndBranchWide n _ => -(n : Int)
  | .popAndBranchBackWide n _ => -(n : Int)
  | .branchIfTrueWide _ => -1
  | .branchIfFalseWide _ => -1
  | .branchBackIfTrue _ => -1
  | .branchBackIfFalse _ => -1
  | .branchBackIfTrueWide _ => -1
  | .branchBackIfFalseWide _ => -1
  | .pop => -1
  | .drop n => -(n : Int)
  | .ret => -1
  | .retNull => 0
  | .stackOverflowCheck => 0
  | .identical => -1
  | .identicalNonNumeric => -1
  | .invokeNative _ _ => 1
  | .invokeDetachableNative _ _ => 1
  | .allocate fields => 1 - (fields : Int)
  | .allocateImmutable fields => 1 - (fields : Int)
  | .allocateBoxed => 0
  | .negate => 0
  | .invokeCompare _ _ => -1
  | .invokeAdd _ => -1
  | .invokeSub _ => -1
  | .invokeMethod argc => -(argc : Int)
  | .invokeStatic arity => 1 - (arity : Int)
  | .invokeFactory arity => 1 - (arity : Int)
  | .invokeTest => 0
  | .invokeTestNoSuchMethod => 0
  | .enterNoSuchMethod => 6
  | .loadStatic => 1
  | .loadStaticInit => 1
  | .storeStatic => 0
  | .processYield => 0
  | .methodEnd => 0

/-- The running height maintained by `BasicBlocksExplorer::ScanBci`
(codegen_llvm.cc:1607-1667) along a straight-line path of opcodes:
`stacksize += StackDiff(bcp)` for each scanned bytecode.  The height the
explorer records for a basic-block leader is this value for the path that
reached it from BCI 0 (seeded at height 0) or from a catch-block entry
(seeded at the frame-range table's declared height). -/
def scanHeight (h : Int) : List Opcode → Int
  | [] => h
  | op :: rest => scanHeight (h + stackDiff op) rest

/-- The operand-stack position maintained by the method lowerer's
`push`/`pop` pair (`stack_pos_`, codegen_llvm.cc:1129-1143) along the same
path: the lowering of each opcode moves it by `lowerNet`. -/
def buildHeight (h : Int) : List Opcode → Int
  | [] => h
  | op :: rest => buildHeight (h + lowerNet op) rest

/-! ## Emitted IR, as an event trace

`BasicBlockBuilder` emits LLVM IR through an `IRBuilder`.  The embedding
records, per emitted instruction, the basic block the builder was inserting
into and the event; SSA values are symbolic terms. -/

/-- A basic block: either one freshly created by the lowering of the current
bytecode (`llvm::BasicBlock::Create`, numbered in creation order with the
builder's current block as `gen 0`), or the pre-created leader block for a
BCI (`GetBasicBlockAt`). -/
inductive Lbl where
  | gen (n : Nat)
  | bci (n : Nat)
deriving DecidableEq

inductive Pred where
  | peq | psge | psgt | psle | pslt
deriving DecidableEq

/-- Symbolic SSA values. -/
inductive Val where
  | popped (n : Nat)
  | intConst (k : Int)
  | ptr2int (v : Val)
  | int2ptr (v : Val)
  | andInt (v : Val) (m : Int)
  | icmp (p : Pred) (a b : Val)
  | select (c t f : Val)
  | saddOvf (a b : Val)
  | ssubOvf (a b : Val)
  | extractValue (v : Val) (i : Nat)
  | slowCaseResult (sel : Int)
  | phi2 (a b : Val)
  | trueObj
  | falseObj
  | nativeResult (nid : Nat)
  | fromFailure (v : Val)
deriving DecidableEq

/-- Emitted events. `select` and `phi` are recorded as events (not just
values) so that their absence from a lowering is expressible. -/
inductive Ev where
  | newBlock (l : Lbl)
  | pop (n : Nat)
  | push (v : Val)
  | condBr (c : Val) (t f : Lbl)
  | br (l : Lbl)
  | ret (v : Val)
  | select (c : Val)
  | phi (a b : Val)
  | callIntrinsic (nm : String)
  | callSlowCase (sel : Int)
  | callNative (nid : Nat)
  | callHandleObjectFromFailure (v : Val)
  | allocaArgArray (arity : Nat)
  | storeArg (i : Nat)
deriving DecidableEq

/-- `IRHelper::CreateSmiCheck` (codegen_llvm.cc:552-554):
`IsNull(And(PtrToInt(object), 1))`. -/
def smiCheck (v : Val) : Val :=
  Val.icmp Pred.peq (Val.andInt (Val.ptr2int v) 1) (Val.intConst 0)

/-- `IRHelper::CreateFailureCheck` (codegen_llvm.cc:556-558):
`ICmpEQ(And(PtrToInt(object), 3), 3)` — both low bits set. -/
def failureCheck (v : Val) : Val :=
  Val.icmp Pred.peq (Val.andInt (Val.ptr2int v) 3) (Val.intConst 3)

/-- The `kInvokeAdd`/`kInvokeSub`/compare opcodes `DoInvokeSmiOperation`
dispatches on. -/
inductive SmiOpKind where
  | add | sub | cmp (c : CmpKind)
deriving DecidableEq

def cmpPred : CmpKind → Pred
  | .ceq => .peq
  | .cge => .psge
  | .cgt => .psgt
  | .cle => .psle
  | .clt => .pslt

/-- `BasicBlockBuilder::DoInvokeSmiOperation` (codegen_llvm.cc:873-973).
`fuse = none` is the ordinary call (`if_true_bci == -1`); `fuse = some
(t, f)` is the fused compare-and-branch form with `t`/`f` the BCIs of the
positive and negative branch targets.  Block numbering: `gen 0` the current
block, `gen 1` `bb_smi_receiver`, `gen 2` `bb_smis`, `gen 3` `bb_nonsmi`,
`gen 4` `bb_join` (created only when unfused). -/
def doInvokeSmiOperation (op : SmiOpKind) (sel : Int) (fuse : Option (Nat × Nat)) :
    List (Lbl × Ev) :=
  let cur := Lbl.gen 0
  let bbSmiReceiver := Lbl.gen 1
  let bbSmis := Lbl.gen 2
  let bbNonsmi := Lbl.gen 3
  let bbJoin := Lbl.gen 4
  let creations :=
    [(cur, Ev.newBlock bbSmiReceiver), (cur, Ev.newBlock bbSmis),
     (cur, Ev.newBlock bbNonsmi)] ++
    (if fuse.isNone then [(cur, Ev.newBlock bbJoin)] else [])
  let taggedArgument := Val.popped 0
  let taggedReceiver := Val.popped 1
  let header :=
    [(cur, Ev.pop 0), (cur, Ev.pop 1),
     (cur, Ev.condBr (smiCheck taggedReceiver) bbSmiReceiver bbNonsmi),
     (bbSmiReceiver, Ev.condBr (smiCheck taggedArgument) bbSmis bbNonsmi)]
  let argument := Val.ptr2int taggedArgument
  let receiver := Val.ptr2int taggedReceiver
  let boolify := match op with
    | .add => false
    | .sub => false
    | .cmp _ => true
  let computeEvs : List (Lbl × Ev) :=
    match op with
    | .add => [(bbSmis, Ev.callIntrinsic "sadd.with.overflow")]
    | .sub => [(bbSmis, Ev.callIntrinsic "ssub.with.overflow")]
    | .cmp _ => []
  let result : Val :=
    match op with
    | .add => Val.extractValue (Val.saddOvf receiver argument) 0
    | .sub => Val.extractValue (Val.ssubOvf receiver argument) 0
    | .cmp c => Val.icmp (cmpPred c) receiver argument
  let noOverflow : Option Val :=
    match op with
    | .add => some (Val.icmp .peq (Val.extractValue (Val.saddOvf receiver argument) 1)
        (Val.intConst 0))
    | .sub => some (Val.icmp .peq (Val.extractValue (Val.ssubOvf receiver argument) 1)
        (Val.intConst 0))
    | .cmp _ => none
  let smiResult : Val :=
    if boolify then Val.select result Val.trueObj Val.falseObj else Val.int2ptr result
  let smiTail : List (Lbl × Ev) :=
    match fuse with
    | none =>
        (if boolify then [(bbSmis, Ev.select result)] else []) ++
        (match noOverflow with
         | none => [(bbSmis, Ev.br bbJoin)]
         | some nov => [(bbSmis, Ev.condBr nov bbJoin bbNonsmi)])
    | some (t, f) => [(bbSmis, Ev.condBr result (Lbl.bci t) (Lbl.bci f))]
  let nonsmiResult := Val.slowCaseResult sel
  let nonsmiEvs : List (Lbl × Ev) :=
    (bbNonsmi, Ev.callSlowCase sel) ::
    (match fuse with
     | none => [(bbNonsmi, Ev.br bbJoin)]
     | some (t, f) =>
         [(bbNonsmi,
           Ev.condBr (Val.icmp .peq nonsmiResult Val.trueObj) (Lbl.bci t) (Lbl.bci f))])
  let joinEvs : List (Lbl × Ev) :=
    match fuse with
    | none => [(bbJoin, Ev.phi smiResult nonsmiResult),
               (bbJoin, Ev.push (Val.phi2 smiResult nonsmiResult))]
    | some _ => []
  creations ++ header ++ computeEvs ++ smiTail ++ nonsmiEvs ++ joinEvs

/-- The fusion condition in the `kInvokeEq..kInvokeLt` case of
`BasicBlocksExplorer::Build` (codegen_llvm.cc:1502-1516): the compare is
postponed (and then fused by the following branch's case) exactly when the
following bytecode's BCI starts no basic block and its opcode is
`kBranchIfTrueWide` or `kBranchIfFalseWide`. -/
def fusesWithNext (labels : List Nat) (nextBci : Nat) (next : Opcode) : Bool :=
  !(labels.contains nextBci) &&
    (match next with
     | .branchIfTrueWide _ => true
     | .branchIfFalseWide _ => true
     | _ => false)

/-- The IR emitted for an `InvokeEq/Ge/Gt/Le/Lt` whose successor bytecode
at `nextBci` is `next` (of byte size `branchSize` when it is a branch).
When the fusion condition holds, the postponed compare is lowered by the
branch's case through `DoCompareAndBranch` (codegen_llvm.cc:1361-1368,
1381-1388, 1054-1060): for `kBranchIfTrueWide` the positive target is the
branch's BCI plus its operand and the negative target the following BCI;
for `kBranchIfFalseWide`, swapped.  Otherwise the compare lowers alone via
`DoInvokeSmiOperation` (the branch is lowered in its own iteration). -/
def lowerCompareStep (labels : List Nat) (c : CmpKind) (sel : Int)
    (nextBci branchSize : Nat) (next : Opcode) : List (Lbl × Ev) :=
  if fusesWithNext labels nextBci next then
    match next with
    | .branchIfTrueWide delta =>
        doInvokeSmiOperation (.cmp c) sel
          (some (((nextBci : Int) + delta).toNat, nextBci + branchSize))
    | .branchIfFalseWide delta =>
        doInvokeSmiOperation (.cmp c) sel
          (some (nextBci + branchSize, ((nextBci : Int) + delta).toNat))
    | _ => doInvokeSmiOperation (.cmp c) sel none
  else doInvokeSmiOperation (.cmp c) sel none

/-- `BasicBlockBuilder::DoInvokeNative` (codegen_llvm.cc:832-864). Blocks:
`gen 0` the current block, `gen 1` `failure`, `gen 2` `no_failure`. -/
def doInvokeNative (nid arity : Nat) : List (Lbl × Ev) :=
  let cur := Lbl.gen 0
  let bbFailure := Lbl.gen 1
  let bbNoFailure := Lbl.gen 2
  let nativeRes := Val.nativeResult nid
  (cur, Ev.allocaArgArray arity) ::
  ((List.range arity).map fun i => (cur, Ev.storeArg i)) ++
  [(cur, Ev.callNative nid),
   (cur, Ev.newBlock bbFailure), (cur, Ev.newBlock bbNoFailure),
   (cur, Ev.condBr (failureCheck nativeRes) bbFailure bbNoFailure),
   (bbNoFailure, Ev.ret nativeRes),
   (bbFailure, Ev.callHandleObjectFromFailure nativeRes),
   (bbFailure, Ev.push (Val.fromFailure nativeRes))]

/-- The events a trace emits into block `l`. -/
def blockEvents (l : Lbl) (tr : List (Lbl × Ev)) : List Ev :=
  (tr.filter (fun p => p.1 = l)).map (fun p => p.2)

/-! ## The GC-intrinsic lowering pass (`RewriteGCIntrinsics`,
codegen_llvm.cc:2196-2298)

A basic block is a list of instructions; SSA values are numeric ids, with
an instruction's result id listed first. -/

inductive Instr where
  | plain (tag : Nat)
  | callTagread (res ptr : Nat)
  | callTagwrite (value ptr : Nat)
  | callSmitoint (res ptr : Nat)
  | callSmitoint64 (res ptr : Nat)
  | callInttosmi (res v : Nat)
  | bitcastTo (res src : Nat) (t : Ty)
  | gep (res base : Nat) (off : Int)
  | ptrcast (res src : Nat) (t : Ty)
  | load (res src : Nat)
  | store (value slot : Nat)
  | ptr2intTo (res src : Nat) (t : Ty)
  | ashr (res src : Nat) (k : Int)
  | add (res a b : Nat)
  | int2ptrTo (res src : Nat) (t : Ty)

/-- Whether the instruction is a call to one of the five GC intrinsics the
pass rewrites. -/
def Instr.isIntrinsicCall : Instr → Bool
  | .callTagread _ _ => true
  | .callTagwrite _ _ => true
  | .callSmitoint _ _ => true
  | .callSmitoint64 _ _ => true
  | .callInttosmi _ _ => true
  | _ => false

/-- `call->replaceAllUsesWith(x)`: substitute value id `o` by `n` in operand
positions.  (In SSA form all uses of the erased call's result are after its
definition, so substituting in the remainder of the block covers them.) -/
def substId (o n : Nat) : Instr → Instr
  | .plain t => .plain t
  | .callTagread r p => .callTagread r (if p = o then n else p)
  | .callTagwrite v p => .callTagwrite (if v = o then n else v) (if p = o then n else p)
  | .callSmitoint r p => .callSmitoint r (if p = o then n else p)
  | .callSmitoint64 r p => .callSmitoint64 r (if p = o then n else p)
  | .callInttosmi r v => .callInttosmi r (if v = o then n else v)
  | .bitcastTo r s t => .bitcastTo r (if s = o then n else s) t
  | .gep r b off => .gep r (if b = o then n else b) off
  | .ptrcast r s t => .ptrcast r (if s = o then n else s) t
  | .load r s => .load r (if s = o then n else s)
  | .store v s => .store (if v = o then n else v) (if s = o then n else s)
  | .ptr2intTo r s t => .ptr2intTo r (if s = o then n else s) t
  | .ashr r s k => .ashr r (if s = o then n else s) k
  | .add r a b => .add r (if a = o then n else a) (if b = o then n else b)
  | .int2ptrTo r s t => .int2ptrTo r (if s = o then n else s) t

/-- The replacement sequence for one `tagwrite(value, ptr)` call site
(codegen_llvm.cc:2223-2234): cast the pointer to a byte pointer, GEP by −1,
`CreatePointerCast` to `object_ptr_ptr_unsafe_type`, then a plain store of
the value.  `c` is the first fresh SSA id. -/
def tagwriteExpansion (value ptr c : Nat) : List Instr :=
  [Instr.bitcastTo c ptr int8PtrTy,
   Instr.gep (c + 1) c (-1),
   Instr.ptrcast (c + 2) (c + 1) objectPtrPtrUnsafeTy,
   Instr.store value (c + 2)]

/-- The replacement sequence for one `tagread(ptr)` call site
(codegen_llvm.cc:2212-2222); the result (id `c + 4`) replaces the call's
uses. -/
def tagreadExpansion (ptr c : Nat) : List Instr :=
  [Instr.bitcastTo c ptr int8PtrTy,
   Instr.gep (c + 1) c (-1),
   Instr.ptrcast (c + 2) (c + 1) objectPtrAspace0PtrAspace0Ty,
   Instr.load (c + 3) (c + 2),
   Instr.bitcastTo (c + 4) (c + 3) objectPtrTy]

/-- One scan of `RewriteGCIntrinsics::tryRewrite` (codegen_llvm.cc:2202-2269)
over a block: rewrite the first intrinsic call site found and stop (the
source returns `true` to restart because the block structure changed), or
report that none remains.  `c` is the next fresh SSA id. -/
def tryRewrite (c : Nat) : List Instr → Option (List Instr × Nat)
  | [] => none
  | i :: rest =>
    match i with
    | .callTagwrite v p => some (tagwriteExpansion v p c ++ rest, c + 3)
    | .callTagread r p =>
        some (tagreadExpansion p c ++ rest.map (substId r (c + 4)), c + 5)
    | .callSmitoint r p =>
        some ([Instr.ptr2intTo c p Ty.i32, Instr.ashr (c + 1) c 1] ++
              rest.map (substId r (c + 1)), c + 2)
    | .callSmitoint64 r p =>
        some ([Instr.ptr2intTo c p Ty.i64, Instr.ashr (c + 1) c 1] ++
              rest.map (substId r (c + 1)), c + 2)
    | .callInttosmi r v =>
        some ([Instr.add c v v, Instr.int2ptrTo (c + 1) c objectPtrTy] ++
              rest.map (substId r (c + 1)), c + 2)
    | _ =>
        match tryRewrite c rest with
        | none => none
        | some (rest', c') => some (i :: rest', c')

/-- The number of intrinsic call sites still in the block. -/
def intrinsicCount (b : List Instr) : Nat :=
  (b.filter Instr.isIntrinsicCall).length

/-- `while (tryRewrite(bb)) {}` (codegen_llvm.cc:2271-2276), with explicit
fuel. -/
def runRewrites (fuel c : Nat) (b : List Instr) : List Instr :=
  match fuel with
  | 0 => b
  | fuel + 1 =>
    match tryRewrite c b with
    | none => b
    | some (b', c') => runRewrites fuel c' b'

/-- The whole pass on one block: iterate `tryRewrite` to exhaustion (each
rewrite removes one intrinsic call site, so `intrinsicCount b` rounds
suffice).  `c` is the first fresh SSA id. -/
def lowerIntrinsics (c : Nat) (b : List Instr) : List Instr :=
  runRewrites (intrinsicCount b) c b

/-! ## LLVM constants

LLVM uniques constants structurally, so constant identity is structural
equality of the terms below.  A `global` carries the fresh creation index
the module assigned it, its symbol name and its pointee type (the value
`new llvm::GlobalVariable`/`llvm::Function::Create` returns is a pointer to
that type in address space 0). -/

inductive Const where
  | cint (v : Int)
  | cint8 (v : Nat)
  | cint64 (v : Int)
  | cword (v : Int)
  | cdouble (bits : Int)
  | nullval (t : Ty)
  | strct (t : Ty) (fields : List Const)
  | carr (t : Ty) (elems : List Const)
  | global (id : Nat) (nm : String) (t : Ty)
  | gep1 (base : Const)
  | bitcast (c : Const) (t : Ty)
  | addrspacecast (c : Const) (t : Ty)
  | ptrcast (c : Const) (t : Ty)
  | int2ptr (c : Const) (t : Ty)
  | ptr2int (c : Const)

/-- `World::CSmi(uint32 integer)` (codegen_llvm.cc:2106-2108): the argument
truncated to `uint32`, shifted left by one by `Smi::FromWord`, truncated to
`uint32` again and wrapped by `CInt`. -/
def csmi (v : Int) : Const := Const.cint (u32 (2 * u32 v))

/-- `World::CTag` (codegen_llvm.cc:2058-2066): bitcast to `i8*`, constant
GEP by +1, address-space cast to the requested address-space-1 type. -/
def ctag (c : Const) (t : Ty) : Const :=
  Const.addrspacecast (Const.gep1 (Const.bitcast c int8PtrTy)) t

/-- `World::CTagAddressSpaceZero` (codegen_llvm.cc:2068-2076): bitcast to
`i8*`, constant GEP by +1, bitcast to the requested address-space-0 type. -/
def ctagAS0 (c : Const) (t : Ty) : Const :=
  Const.bitcast (Const.gep1 (Const.bitcast c int8PtrTy)) t

/-- `World::CCast` (codegen_llvm.cc:2119-2122): `ConstantExpr::getPointerCast`.
LLVM's constant folder collapses a pointer cast of a null constant to the
null of the destination type. -/
def ccast (c : Const) (t : Ty) : Const :=
  match c with
  | .nullval _ => .nullval t
  | c => .ptrcast c t

/-- The LLVM type of a constant a `Build*Constant` helper returns: each
helper returns a fresh global, whose value is an address-space-0 pointer to
its pointee type (used by the `value->getType()` argument at
codegen_llvm.cc:213). -/
def valueTy : Const → Ty
  | .global _ _ t => Ty.ptr t 0
  | _ => objectPtrAspace0Ty

/-! ## The input program (§3 data model) -/

/-- An input value: a small-integer immediate or a heap object, keyed by
address. -/
inductive Obj where
  | smi (v : Int)
  | heap (a : Nat)
deriving DecidableEq

inductive InstKind where
  | isTrue | isFalse | isNull | plain
deriving DecidableEq

/-- One heap object, dispatched on exactly the variants
`HeapBuilder::BuildConstant` recognises (codegen_llvm.cc:183-202).
`numFields` on a class embeds `Class::NumberOfInstanceFields()`. -/
inductive ObjDesc where
  | cls (classAddr : Nat) (superAddr : Option Nat) (instanceFormat : Int)
        (idv childIdv : Int) (methodsAddr : Option Nat) (numFields : Nat)
  | func (classAddr : Nat) (arity : Nat)
  | arr (classAddr : Nat) (elems : List Obj)
  | byteArr (classAddr : Nat) (bytes : List Nat)
  | inst (classAddr : Nat) (flags : Int) (fields : List Obj) (kind : InstKind)
  | dte (classAddr targetAddr : Nat) (offsetObj : Obj) (selector : Int)
  | initzr (classAddr funcAddr : Nat)
  | largeInt (v : Int)
  | dbl (bits : Int)
  | obstr (classAddr : Nat) (chars : List Nat)

/-- The program snapshot: the heap plus the roots the materializer reads
(`program_->large_integer_class()`, `program_->double_class()`). -/
structure Prog where
  heap : Nat → Option ObjDesc
  largeIntegerClass : Nat
  doubleClass : Nat

/-- Modelled from the spec: `Smi::IsValidAsPortable` (`src/vm/object.h` is
not part of this snapshot) — whether the value is a valid smi on the most
restrictive 32-bit target, i.e. fits the word-size-minus-one-bit smi payload
of §3/the glossary on a 32-bit word. -/
def isValidAsPortable (v : Int) : Bool :=
  (-(2 ^ 30) ≤ v) && (v ≤ 2 ^ 30 - 1)

/-! ## The materializer state -/

/-- One emitted module-level global (a `GlobalVariable`, or a declared
`llvm::Function` when `init = none`). -/
structure GlobalDef where
  gid : Nat
  nm : String
  ty : Ty
  init : Option Const

/-- The materializer's state: the three memoization maps of `World`
(codegen_llvm.h), the `llvm_functions` map, and the module's globals in
creation order with a fresh-id counter. -/
structure World where
  untagged_aspace0 : Nat → Option Const
  tagged_aspace0 : Nat → Option Const
  tagged_aspace1 : Nat → Option Const
  llvm_functions : Nat → Option Const
  globals : List GlobalDef
  counter : Nat

def emptyWorld : World :=
  ⟨fun _ => none, fun _ => none, fun _ => none, fun _ => none, [], 0⟩

/-- Point update of a map. -/
def upd (m : Nat → Option Const) (k : Nat) (v : Const) : Nat → Option Const :=
  fun x => if x = k then some v else m x

/-- `new llvm::GlobalVariable(module_, ...)` / `llvm::Function::Create`:
appends a fresh global and returns the constant referring to it. -/
def World.newGlobal (w : World) (nm : String) (t : Ty) (init : Option Const) :
    Const × World :=
  (Const.global w.counter nm t,
   { w with globals := w.globals ++ [⟨w.counter, nm, t, init⟩],
            counter := w.counter + 1 })

/-- The type of the recursive `BuildConstant` reference threaded through the
per-variant builders. -/
abbrev BuildRec := World → Obj → Option (Const × World)

/-! ## Per-variant builders (`HeapBuilder`, codegen_llvm.cc:218-423) -/

/-- The element loop of `BuildArrayConstant` (codegen_llvm.cc:230-237): heap
elements are built recursively and `CCast`; smi elements become
`CCast(CInt2Pointer(CSmi(value), aspace0))` with no portability check. -/
def buildArrayElems (rec : BuildRec) : World → List Obj → Option (List Const × World)
  | w, [] => some ([], w)
  | w, Obj.heap a :: rest => do
      let (c, w) ← rec w (Obj.heap a)
      let (cs, w) ← buildArrayElems rec w rest
      some (ccast c objectPtrAspace0Ty :: cs, w)
  | w, Obj.smi v :: rest => do
      let (cs, w) ← buildArrayElems rec w rest
      some (ccast (Const.int2ptr (csmi v) objectPtrAspace0Ty) objectPtrAspace0Ty :: cs, w)

/-- The field loop of `BuildInstanceConstant` (codegen_llvm.cc:320-323):
every field goes through `CCast(BuildConstant(field))`. -/
def buildFieldElems (rec : BuildRec) : World → List Obj → Option (List Const × World)
  | w, [] => some ([], w)
  | w, o :: rest => do
      let (c, w) ← rec w o
      let (cs, w) ← buildFieldElems rec w rest
      some (ccast c objectPtrAspace0Ty :: cs, w)

/-- `HeapBuilder::BuildFunctionConstant` (codegen_llvm.cc:293-311): declare
the LLVM function first and register it in `llvm_functions`, then build the
class, then emit the `FunctionObject` body with `CSmi(4)` as bytecode size,
`CSmi(0)` as literals size, `CSmi(arity)`, and the function symbol
pointer-to-int as the machine-code word. -/
def buildFunctionConstant (rec : BuildRec) (w : World) (a classAddr arity : Nat) :
    Option (Const × World) := do
  let (llvmFunction, w) := w.newGlobal ("Function_" ++ toString a) (functionType arity) none
  let w := { w with llvm_functions := upd w.llvm_functions a llvmFunction }
  let (klassC, w) ← rec w (Obj.heap classAddr)
  let klass := Const.strct heapObjectTy [klassC]
  let functionObject := Const.strct functionStructTy
    [klass, csmi 4, csmi 0, csmi arity, Const.ptr2int llvmFunction]
  let (g, w) := w.newGlobal ("FunctionObject_" ++ toString a) functionStructTy
    (some functionObject)
  some (g, w)

/-- The class-pointer slot of `BuildClassConstant` (codegen_llvm.cc:268-271):
a metaclass root (`klass->get_class() == klass`) yields the null constant,
otherwise the class is built recursively; either way the result is `CCast`
to the inner type of `heap_object_type` (= `class_ptr_type`). -/
def buildClassPointer (rec : BuildRec) (w : World) (a ka : Nat) :
    Option (Const × World) :=
  if ka = a then some (ccast (Const.nullval classPtrTy) classPtrTy, w)
  else do
    let (c, w) ← rec w (Obj.heap ka)
    some (ccast c classPtrTy, w)

/-- The super-class slot (codegen_llvm.cc:274, 279-280): `CCast(null)` for a
root without super-class, else the built super-class constant. -/
def buildSuperPointer (rec : BuildRec) (w : World) (su : Option Nat) :
    Option (Const × World) :=
  match su with
  | none => some (ccast (Const.nullval classPtrTy) classPtrTy, w)
  | some s => rec w (Obj.heap s)

/-- The methods slot (codegen_llvm.cc:284-285): the methods array `CCast` to
`array_header_ptr`, or `CCast(null)`. -/
def buildMethodsPointer (rec : BuildRec) (w : World) (me : Option Nat) :
    Option (Const × World) :=
  match me with
  | none => some (ccast (Const.nullval classPtrTy) arrayHeaderPtrTy, w)
  | some m => do
    let (c, w) ← rec w (Obj.heap m)
    some (ccast c arrayHeaderPtrTy, w)

/-- `HeapBuilder::BuildClassConstant` (codegen_llvm.cc:261-291): a metaclass
root (`klass->get_class() == klass`) gets a null class pointer; a class
without super-class gets a null super-class slot; the methods array is built
when present, else null. -/
def buildClassConstant (rec : BuildRec) (w : World) (a classAddr : Nat)
    (superAddr : Option Nat) (instanceFormat idv childIdv : Int)
    (methodsAddr : Option Nat) : Option (Const × World) := do
  let (llvmKlass, w) ← buildClassPointer rec w a classAddr
  let heapObject := Const.strct heapObjectTy [llvmKlass]
  let (superC, w) ← buildSuperPointer rec w superAddr
  let (methodsC, w) ← buildMethodsPointer rec w methodsAddr
  let llvmClass := Const.strct classTy
    [heapObject, superC, Const.cint (u32 instanceFormat), csmi idv, csmi childIdv,
     methodsC]
  let (g, w) := w.newGlobal ("Class_" ++ toString a) classTy (some llvmClass)
  some (g, w)

/-- `HeapBuilder::BuildArrayConstant` (codegen_llvm.cc:218-240). -/
def buildArrayConstant (rec : BuildRec) (w : World) (a classAddr : Nat)
    (elems : List Obj) : Option (Const × World) := do
  let (llvmKlass, w) ← rec w (Obj.heap classAddr)
  let ho := Const.strct heapObjectTy [llvmKlass]
  let llvmArray := Const.strct arrayHeaderTy [ho, csmi elems.length]
  let fullTy := objectArrayType elems.length "Array"
  let (entryCs, w) ← buildArrayElems rec w elems
  let full := Const.strct fullTy (llvmArray :: entryCs)
  let (g, w) := w.newGlobal
    ("ArrayInstance_" ++ toString a ++ "__" ++ toString elems.length) fullTy (some full)
  some (g, w)

/-- `HeapBuilder::BuildByteArrayConstant` (codegen_llvm.cc:242-259). -/
def buildByteArrayConstant (rec : BuildRec) (w : World) (a classAddr : Nat)
    (bytes : List Nat) : Option (Const × World) := do
  let (llvmKlass, w) ← rec w (Obj.heap classAddr)
  let ho := Const.strct heapObjectTy [llvmKlass]
  let llvmArray := Const.strct arrayHeaderTy [ho, csmi bytes.length]
  let fullTy := objectArrayType bytes.length "ByteArray"
  let full := Const.strct fullTy (llvmArray :: bytes.map (Const.cint8 ·))
  let (g, w) := w.newGlobal
    ("ByteArrayInstance_" ++ toString a ++ "__" ++ toString bytes.length) fullTy
    (some full)
  some (g, w)

/-- `HeapBuilder::BuildInstanceConstant` (codegen_llvm.cc:313-337): the field
count is read from the instance's class; `null`/`true`/`false` get their
well-known symbol names. -/
def buildInstanceConstant (P : Prog) (rec : BuildRec) (w : World) (a classAddr : Nat)
    (flags : Int) (fields : List Obj) (kind : InstKind) : Option (Const × World) := do
  let (kC, w) ← rec w (Obj.heap classAddr)
  let ho := Const.strct heapObjectTy [kC]
  let inst := Const.strct instanceStructTy [ho, Const.cint (u32 flags)]
  let nof := match P.heap classAddr with
    | some (ObjDesc.cls _ _ _ _ _ _ n) => n
    | _ => 0
  let (fieldCs, w) ← buildFieldElems rec w
    ((List.range nof).map fun i => fields.getD i (Obj.smi 0))
  let full := Const.strct (instanceTypeN nof) (inst :: fieldCs)
  let nm := match kind with
    | .isTrue => "true__"
    | .isFalse => "false__"
    | .isNull => "null__"
    | .plain => "InstanceObject_" ++ toString a ++ "__" ++ toString nof
  let (g, w) := w.newGlobal nm (instanceTypeN nof) (some full)
  some (g, w)

/-- `HeapBuilder::BuildDispatchTableEntryConstant` (codegen_llvm.cc:339-353).
The code slot reads `llvm_functions[entry->target()]`, populated by the
target's build on the previous line. -/
def buildDispatchTableEntryConstant (rec : BuildRec) (w : World)
    (a classAddr targetAddr : Nat) (offsetObj : Obj) (selector : Int) :
    Option (Const × World) := do
  let (kC, w) ← rec w (Obj.heap classAddr)
  let ho := Const.strct heapObjectTy [kC]
  let (target, w) ← rec w (Obj.heap targetAddr)
  let code ← w.llvm_functions targetAddr
  let (offsetC, w) ← rec w offsetObj
  let entries := [ho, ccast target objectPtrAspace0Ty, ccast code objectPtrAspace0Ty,
                  ccast offsetC objectPtrAspace0Ty,
                  Const.int2ptr (csmi selector) objectPtrAspace0Ty]
  let (g, w) := w.newGlobal ("DispatchTableEntry_" ++ toString a) dteTy
    (some (Const.strct dteTy entries))
  some (g, w)

/-- `HeapBuilder::BuildInitializerConstant` (codegen_llvm.cc:383-394). -/
def buildInitializerConstant (rec : BuildRec) (w : World) (a classAddr funcAddr : Nat) :
    Option (Const × World) := do
  let (_, w) ← rec w (Obj.heap funcAddr)
  let (kC, w) ← rec w (Obj.heap classAddr)
  let ho := Const.strct heapObjectTy [kC]
  let code ← w.llvm_functions funcAddr
  let (g, w) := w.newGlobal ("InitializerObject_" ++ toString a) initializerTy
    (some (Const.strct initializerTy [ho, ccast code objectPtrAspace0Ty]))
  some (g, w)

/-- `HeapBuilder::BuildLargeInteger` (codegen_llvm.cc:396-406). -/
def buildLargeInteger (P : Prog) (rec : BuildRec) (w : World) (v : Int) :
    Option (Const × World) := do
  let (kC, w) ← rec w (Obj.heap P.largeIntegerClass)
  let ho := Const.strct heapObjectTy [kC]
  let (g, w) := w.newGlobal ("LargeIntegerObject_" ++ toString v) largeIntegerTy
    (some (Const.strct largeIntegerTy [ho, Const.cint64 v]))
  some (g, w)

/-- `HeapBuilder::BuildDoubleConstant` (codegen_llvm.cc:408-418). -/
def buildDoubleConstant (P : Prog) (rec : BuildRec) (w : World) (bits : Int) :
    Option (Const × World) := do
  let (kC, w) ← rec w (Obj.heap P.doubleClass)
  let ho := Const.strct heapObjectTy [kC]
  let (g, w) := w.newGlobal "DoubleObject" doubleTy
    (some (Const.strct doubleTy [ho, Const.cdouble bits]))
  some (g, w)

/-- `HeapBuilder::BuildOneByteStringConstant` (codegen_llvm.cc:355-381). -/
def buildOneByteStringConstant (rec : BuildRec) (w : World) (a classAddr : Nat)
    (chars : List Nat) : Option (Const × World) := do
  let (llvmKlass, w) ← rec w (Obj.heap classAddr)
  let ho := Const.strct heapObjectTy [llvmKlass]
  let arrayHdr := Const.strct arrayHeaderTy [ho, csmi chars.length]
  let obs := Const.strct oneByteStringTy [arrayHdr, csmi chars.length]
  let full := Const.strct (oneByteStringTypeN chars.length)
    [obs, Const.carr (Ty.arr Ty.i8 chars.length) (chars.map (Const.cint8 ·))]
  let (g, w) := w.newGlobal
    ("OneByteString_" ++ toString a ++ "__" ++ toString chars.length)
    (oneByteStringTypeN chars.length) (some full)
  some (g, w)

/-- The variant dispatch of `BuildConstant` (codegen_llvm.cc:183-207): the
`if/else if` chain computing `value`, including the `UNREACHABLE` fallback
emitting a generic `Object_<addr>` global for an unknown variant. -/
def buildDispatch (P : Prog) (rec : BuildRec) (w : World) (a : Nat) :
    Option (Const × World) :=
  match P.heap a with
  | some (ObjDesc.func ca ar) => buildFunctionConstant rec w a ca ar
  | some (ObjDesc.cls ca su ifo idv cid me _) =>
      buildClassConstant rec w a ca su ifo idv cid me
  | some (ObjDesc.arr ca es) => buildArrayConstant rec w a ca es
  | some (ObjDesc.byteArr ca bs) => buildByteArrayConstant rec w a ca bs
  | some (ObjDesc.inst ca fl fs k) => buildInstanceConstant P rec w a ca fl fs k
  | some (ObjDesc.dte ca ta off sel) =>
      buildDispatchTableEntryConstant rec w a ca ta off sel
  | some (ObjDesc.obstr ca cs) => buildOneByteStringConstant rec w a ca cs
  | some (ObjDesc.initzr ca fa) => buildInitializerConstant rec w a ca fa
  | some (ObjDesc.largeInt v) => buildLargeInteger P rec w v
  | some (ObjDesc.dbl bits) => buildDoubleConstant P rec w bits
  | none =>
      some (w.newGlobal ("Object_" ++ toString a) objectPtrTy
        (some (Const.nullval objectPtrTy)))

/-- `HeapBuilder::BuildConstant` (codegen_llvm.cc:157-216), with fuel
bounding the recursion depth.  A smi input returns the tagged immediate when
portable and otherwise a large-integer constant; a heap object already in
`tagged_aspace0` returns memoized; otherwise the variant dispatch runs and
the result is stored untagged, tagged into address space 1 via `CTag`, and
tagged in address space 0 via `CTagAddressSpaceZero` — the last being the
return value. -/
def buildConstant (P : Prog) : Nat → World → Obj → Option (Const × World)
  | 0, _, _ => none
  | fuel + 1, w, Obj.smi v =>
      if isValidAsPortable v then
        some (Const.int2ptr (csmi v) objectPtrAspace0Ty, w)
      else
        buildLargeInteger P (buildConstant P fuel) w v
  | fuel + 1, w, Obj.heap a =>
      match w.tagged_aspace0 a with
      | some c => some (c, w)
      | none => do
        let (value, w') ← buildDispatch P (buildConstant P fuel) w a
        let tagged0 := ctagAS0 value (valueTy value)
        some (tagged0,
          { w' with
            untagged_aspace0 := upd w'.untagged_aspace0 a value,
            tagged_aspace1 := upd w'.tagged_aspace1 a (ctag value objectPtrTy),
            tagged_aspace0 := upd w'.tagged_aspace0 a tagged0 })

/-! ## State consistency -/

/-- Consistency of the materializer state: every memoized `tagged_aspace0`
entry is the address-space-0 tagged view of the untagged constant stored in
`untagged_aspace0`, whose address-space-1 tagged view sits in
`tagged_aspace1`; every declared LLVM function of a function object is typed
by the object's arity; and a function object whose constant is memoized has
its LLVM function declared. -/
structure Wf (P : Prog) (w : World) : Prop where
  maps : ∀ a c, w.tagged_aspace0 a = some c →
    ∃ v t, w.untagged_aspace0 a = some v ∧
      w.tagged_aspace1 a = some (ctag v objectPtrTy) ∧ c = ctagAS0 v t
  fnTyped : ∀ a ka ar, P.heap a = some (ObjDesc.func ka ar) →
    w.llvm_functions a = none ∨
      ∃ i n, w.llvm_functions a = some (Const.global i n (functionType ar))
  fnDone : ∀ a ka ar, P.heap a = some (ObjDesc.func ka ar) →
    w.tagged_aspace0 a ≠ none → w.llvm_functions a ≠ none

/-- `llvm_functions` entries are only ever added, never removed. -/
def FnMono (w w' : World) : Prop :=
  ∀ x, w.llvm_functions x ≠ none → w'.llvm_functions x ≠ none

/-- The induction hypothesis for the recursive `BuildConstant` reference. -/
def RecOK (P : Prog) (rec : BuildRec) : Prop :=
  ∀ w o c w', Wf P w → rec w o = some (c, w') → Wf P w' ∧ FnMono w w'

/-! ## Concrete example programs (used to instantiate the theorems) -/

/-- A single metaclass-root class at address 3: its class pointer points to
itself, it has no super-class and no methods. -/
def metaProg : Prog :=
  ⟨fun a => if a = 3 then some (ObjDesc.cls 3 none 5 1 2 none 0) else none, 3, 3⟩

/-- A function of arity 2 at address 1 whose class is the metaclass-root
class at address 3. -/
def funProg : Prog :=
  ⟨fun a =>
      if a = 1 then some (ObjDesc.func 3 2)
      else if a = 3 then some (ObjDesc.cls 3 none 5 1 2 none 0)
      else none,
   3, 3⟩

/-- A program whose large-integer class is the metaclass-root class at
address 7 (enough heap for materializing a non-portable smi). -/
def liProg : Prog :=
  ⟨fun a => if a = 7 then some (ObjDesc.cls 7 none 0 0 0 none 0) else none, 7, 7⟩

/-! # Theorems -/

/-- C3: for every word-sized integer representable as a smi, the lowered
smi-encode (add the value to itself: shift left by one, low bit clear)
followed by the lowered smi-decode (pointer-to-int, then arithmetic shift
right by one) yields the value again; and for every smi-tagged 64-bit
pattern (low bit zero), encode after decode is the identity. -/
theorem smi_encode_decode_roundtrip :
    (∀ n : Int, -(2 ^ 62) ≤ n → n < 2 ^ 62 →
      ofBits64 (smiToInt64 (intToSmi64 (toBits64 n))) = n) ∧
    (∀ p : Nat, p < 2 ^ 64 → p % 2 = 0 → intToSmi64 (smiToInt64 p) = p) := by
  constructor
  · intro n h1 h2
    unfold ofBits64 smiToInt64 intToSmi64 toBits64
    norm_num
    split_ifs <;> omega
  · intro p h1 h2
    unfold smiToInt64 intToSmi64
    norm_num
    split_ifs <;> omega

theorem smi_encode_decode_roundtrip_witness :
    ofBits64 (smiToInt64 (intToSmi64 (toBits64 (-5)))) = -5 ∧
    intToSmi64 (smiToInt64 6) = 6 :=
  ⟨smi_encode_decode_roundtrip.1 (-5) (by norm_num) (by norm_num),
   smi_encode_decode_roundtrip.2 6 (by norm_num) (by norm_num)⟩

/-- Every opcode other than `kEnterNoSuchMethod` has an explorer stack delta
equal to the lowering's net push−pop effect. -/
theorem stackDiff_eq_lowerNet (op : Opcode) (h : op ≠ Opcode.enterNoSuchMethod) :
    stackDiff op = lowerNet op := by
  cases op <;> first | rfl | exact absurd rfl h

/-- C1 (amended): along every path of opcodes that avoids
`kEnterNoSuchMethod`, the running height the stack-height explorer computes
by summing `StackDiff` deltas equals the net number of push minus pop
operations the method lowerer performs; for `kEnterNoSuchMethod` the
declared delta is +80 while the lowering pushes 6 nulls, so the equality
fails on any path through it. -/
theorem stack_heights_agree (p : List Opcode) : ∀ h0 : Int,
    Opcode.enterNoSuchMethod ∉ p → scanHeight h0 p = buildHeight h0 p := by
  induction p with
  | nil => intro h0 _; rfl
  | cons op rest ih =>
    intro h0 hmem
    rw [List.mem_cons, not_or] at hmem
    obtain ⟨h1, h2⟩ := hmem
    unfold scanHeight buildHeight
    rw [stackDiff_eq_lowerNet op (fun he => h1 he.symm)]
    exact ih _ h2

theorem stack_heights_agree_witness :
    Opcode.enterNoSuchMethod ∉ [Opcode.loadLocal 0, Opcode.pop] ∧
    scanHeight 0 [Opcode.loadLocal 0, Opcode.pop] =
      buildHeight 0 [Opcode.loadLocal 0, Opcode.pop] :=
  ⟨by decide, stack_heights_agree [Opcode.loadLocal 0, Opcode.pop] 0 (by decide)⟩

/-- C1 (counterexample): on the one-opcode path `kEnterNoSuchMethod` from a
leader, the explorer's entry height for the next leader is 80 (the declared
`StackDiff`, codegen_llvm.cc:63-66) while the lowering `DoEnterNSM`
performs 6 pushes (codegen_llvm.cc:768-776), so the claimed equality of the
two heights fails. -/
theorem stack_height_enter_nsm_counterexample :
    scanHeight 0 [Opcode.enterNoSuchMethod] = 80 ∧
    buildHeight 0 [Opcode.enterNoSuchMethod] = 6 ∧
    scanHeight 0 [Opcode.enterNoSuchMethod] ≠
      buildHeight 0 [Opcode.enterNoSuchMethod] :=
  ⟨rfl, rfl, by decide⟩

/-! ### The GC-intrinsic pass -/

theorem substId_isIntrinsicCall (o n : Nat) (i : Instr) :
    (substId o n i).isIntrinsicCall = i.isIntrinsicCall := by
  cases i <;> simp [substId, Instr.isIntrinsicCall]

theorem intrinsicCount_map_subst (o n : Nat) (b : List Instr) :
    (List.filter Instr.isIntrinsicCall (b.map (substId o n))).length =
      (List.filter Instr.isIntrinsicCall b).length := by
  induction b with
  | nil => rfl
  | cons i rest ih =>
    simp only [List.map_cons, List.filter_cons, substId_isIntrinsicCall]
    cases h : i.isIntrinsicCall <;> simp [ih]

/-- A scan that finds no intrinsic call site leaves a block with none. -/
theorem tryRewrite_none_count (c : Nat) (b : List Instr)
    (h : tryRewrite c b = none) : intrinsicCount b = 0 := by
  induction b generalizing c with
  | nil => rfl
  | cons i rest ih =>
    cases i <;> simp only [tryRewrite] at h <;>
      first
      | (cases htr : tryRewrite c rest with
         | none =>
             simp only [intrinsicCount, List.filter_cons, Instr.isIntrinsicCall,
               Bool.false_eq_true, if_false]
             exact ih c htr
         | some p => rw [htr] at h; simp at h)
      | simp at h

/-- One successful rewrite removes exactly one intrinsic call site. -/
theorem tryRewrite_count (c : Nat) (b b' : List Instr) (c' : Nat)
    (h : tryRewrite c b = some (b', c')) :
    intrinsicCount b' + 1 = intrinsicCount b := by
  induction b generalizing c b' c' with
  | nil => simp [tryRewrite] at h
  | cons i rest ih =>
    cases i with
    | callTagwrite v p =>
        simp only [tryRewrite, Option.some.injEq, Prod.mk.injEq] at h
        obtain ⟨h1, _⟩ := h
        subst h1
        simp [intrinsicCount, tagwriteExpansion, Instr.isIntrinsicCall, List.filter_append]
    | callTagread r p =>
        simp only [tryRewrite, Option.some.injEq, Prod.mk.injEq] at h
        obtain ⟨h1, _⟩ := h
        subst h1
        simp [intrinsicCount, tagreadExpansion, Instr.isIntrinsicCall, List.filter_append,
          intrinsicCount_map_subst]
    | callSmitoint r p =>
        simp only [tryRewrite, Option.some.injEq, Prod.mk.injEq] at h
        obtain ⟨h1, _⟩ := h
        subst h1
        simp [intrinsicCount, Instr.isIntrinsicCall, List.filter_append,
          intrinsicCount_map_subst]
    | callSmitoint64 r p =>
        simp only [tryRewrite, Option.some.injEq, Prod.mk.injEq] at h
        obtain ⟨h1, _⟩ := h
        subst h1
        simp [intrinsicCount, Instr.isIntrinsicCall, List.filter_append,
          intrinsicCount_map_subst]
    | callInttosmi r v =>
        simp only [tryRewrite, Option.some.injEq, Prod.mk.injEq] at h
        obtain ⟨h1, _⟩ := h
        subst h1
        simp [intrinsicCount, Instr.isIntrinsicCall, List.filter_append,
          intrinsicCount_map_subst]
    | plain t =>
        simp only [tryRewrite] at h
        cases htr : tryRewrite c rest with
        | none => rw [htr] at h; simp at h
        | some q =>
            rw [htr] at h
            obtain ⟨q1, q2⟩ := q
            simp only [Option.some.injEq, Prod.mk.injEq] at h
            obtain ⟨h1, _⟩ := h
            subst h1
            have := ih c q1 q2 htr
            simp only [intrinsicCount, List.filter_cons, Instr.isIntrinsicCall,
              Bool.false_eq_true, if_false] at *
            omega
    | bitcastTo r s t =>
        simp only [tryRewrite] at h
        cases htr : tryRewrite c rest with
        | none => rw [htr] at h; simp at h
        | some q =>
            rw [htr] at h
            obtain ⟨q1, q2⟩ := q
            simp only [Option.some.injEq, Prod.mk.injEq] at h
            obtain ⟨h1, _⟩ := h
            subst h1
            have := ih c q1 q2 htr
            simp only [intrinsicCount, List.filter_cons, Instr.isIntrinsicCall,
              Bool.false_eq_true, if_false] at *
            omega
    | gep r b off =>
        simp only [tryRewrite] at h
        cases htr : tryRewrite c rest with
        | none => rw [htr] at h; simp at h
        | some q =>
            rw [htr] at h
            obtain ⟨q1, q2⟩ := q
            simp only [Option.some.injEq, Prod.mk.injEq] at h
            obtain ⟨h1, _⟩ := h
            subst h1
            have := ih c q1 q2 htr
            simp only [intrinsicCount, List.filter_cons, Instr.isIntrinsicCall,
              Bool.false_eq_true, if_false] at *
            omega
    | ptrcast r s t =>
        simp only [tryRewrite] at h
        cases htr : tryRewrite c rest with
        | none => rw [htr] at h; simp at h
        | some q =>
            rw [htr] at h
            obtain ⟨q1, q2⟩ := q
            simp only [Option.some.injEq, Prod.mk.injEq] at h
            obtain ⟨h1, _⟩ := h
            subst h1
            have := ih c q1 q2 htr
            simp only [intrinsicCount, List.filter_cons, Instr.isIntrinsicCall,
              Bool.false_eq_true, if_false] at *
            omega
    | load r s =>
        simp only [tryRewrite] at h
        cases htr : tryRewrite c rest with
        | none => rw [htr] at h; simp at h
        | some q =>
            rw [htr] at h
            obtain ⟨q1, q2⟩ := q
            simp only [Option.some.injEq, Prod.mk.injEq] at h
            obtain ⟨h1, _⟩ := h
            subst h1
            have := ih c q1 q2 htr
            simp only [intrinsicCount, List.filter_cons, Instr.isIntrinsicCall,
              Bool.false_eq_true, if_false] at *
            omega
    | store v s =>
        simp only [tryRewrite] at h
        cases htr : tryRewrite c rest with
        | none => rw [htr] at h; simp at h
        | some q =>
            rw [htr] at h
            obtain ⟨q1, q2⟩ := q
            simp only [Option.some.injEq, Prod.mk.injEq] at h
            obtain ⟨h1, _⟩ := h
            subst h1
            have := ih c q1 q2 htr
            simp only [intrinsicCount, List.filter_cons, Instr.isIntrinsicCall,
              Bool.false_eq_true, if_false] at *
            omega
    | ptr2intTo r s t =>
        simp only [tryRewrite] at h
        cases htr : tryRewrite c rest with
        | none => rw [htr] at h; simp at h
        | some q =>
            rw [htr] at h
            obtain ⟨q1, q2⟩ := q
            simp only [Option.some.injEq, Prod.mk.injEq] at h
            obtain ⟨h1, _⟩ := h
            subst h1
            have := ih c q1 q2 htr
            simp only [intrinsicCount, List.filter_cons, Instr.isIntrinsicCall,
              Bool.false_eq_true, if_false] at *
            omega
    | ashr r s k =>
        simp only [tryRewrite] at h
        cases htr : tryRewrite c rest with
        | none => rw [htr] at h; simp at h
        | some q =>
            rw [htr] at h
            obtain ⟨q1, q2⟩ := q
            simp only [Option.some.injEq, Prod.mk.injEq] at h
            obtain ⟨h1, _⟩ := h
            subst h1
            have := ih c q1 q2 htr
            simp only [intrinsicCount, List.filter_cons, Instr.isIntrinsicCall,
              Bool.false_eq_true, if_false] at *
            omega
    | add r x y =>
        simp only [tryRewrite] at h
        cases htr : tryRewrite c rest with
        | none => rw [htr] at h; simp at h
        | some q =>
            rw [htr] at h
            obtain ⟨q1, q2⟩ := q
            simp only [Option.some.injEq, Prod.mk.injEq] at h
            obtain ⟨h1, _⟩ := h
            subst h1
            have := ih c q1 q2 htr
            simp only [intrinsicCount, List.filter_cons, Instr.isIntrinsicCall,
              Bool.false_eq_true, if_false] at *
            omega
    | int2ptrTo r s t =>
        simp only [tryRewrite] at h
        cases htr : tryRewrite c rest with
        | none => rw [htr] at h; simp at h
        | some q =>
            rw [htr] at h
            obtain ⟨q1, q2⟩ := q
            simp only [Option.some.injEq, Prod.mk.injEq] at h
            obtain ⟨h1, _⟩ := h
            subst h1
            have := ih c q1 q2 htr
            simp only [intrinsicCount, List.filter_cons, Instr.isIntrinsicCall,
              Bool.false_eq_true, if_false] at *
            omega

/-- Enough rounds of `tryRewrite` eliminate every intrinsic call site. -/
theorem runRewrites_count (fuel : Nat) : ∀ c b, intrinsicCount b ≤ fuel →
    intrinsicCount (runRewrites fuel c b) = 0 := by
  induction fuel with
  | zero => intro c b hb; unfold runRewrites; omega
  | succ fuel ih =>
    intro c b hb
    unfold runRewrites
    cases htr : tryRewrite c b with
    | none => exact tryRewrite_none_count c b htr
    | some p =>
        obtain ⟨b', c'⟩ := p
        have := tryRewrite_count c b b' c' htr
        exact ih c' b' (by omega)

theorem lowerIntrinsics_count (c : Nat) (b : List Instr) :
    intrinsicCount (lowerIntrinsics c b) = 0 :=
  runRewrites_count (intrinsicCount b) c b (Nat.le_refl _)

theorem no_tagwrite_of_count (b : List Instr) (h : intrinsicCount b = 0) :
    ∀ v p, Instr.callTagwrite v p ∉ b := by
  intro v p hmem
  have : Instr.callTagwrite v p ∈ b.filter Instr.isIntrinsicCall :=
    List.mem_filter.mpr ⟨hmem, rfl⟩
  unfold intrinsicCount at h
  rw [List.length_eq_zero] at h
  rw [h] at this
  exact List.not_mem_nil _ this

/-- Scanning past an intrinsic-free prefix. -/
theorem tryRewrite_append_clean (pre : List Instr) (c : Nat) (b : List Instr)
    (hpre : ∀ i ∈ pre, i.isIntrinsicCall = false) :
    tryRewrite c (pre ++ b) =
      (tryRewrite c b).map (fun q => (pre ++ q.1, q.2)) := by
  induction pre with
  | nil =>
      simp only [List.nil_append]
      cases tryRewrite c b with
      | none => rfl
      | some q => simp
  | cons i pre ih =>
      have hi : i.isIntrinsicCall = false := hpre i (List.mem_cons_self i pre)
      have hpre' : ∀ j ∈ pre, j.isIntrinsicCall = false :=
        fun j hj => hpre j (List.mem_cons_of_mem i hj)
      have step : tryRewrite c (i :: (pre ++ b)) =
          match tryRewrite c (pre ++ b) with
          | none => none
          | some (rest', c') => some (i :: rest', c') := by
        cases i <;> first | rfl | simp [Instr.isIntrinsicCall] at hi
      rw [List.cons_append, step, ih hpre']
      cases tryRewrite c b with
      | none => rfl
      | some q => simp

/-- C5 (amended): the pass rewrites a `tagwrite(value, ptr)` call site into:
cast the pointer to a byte pointer, GEP by −1, `CreatePointerCast` to
`object_ptr_ptr_unsafe_type` — an **address-space-0** pointer to an
address-space-1 object pointer (codegen_llvm.cc:1873) — then a plain store
of the value; and after the pass no intrinsic call (in particular no
`tagwrite`) remains in any block. -/
theorem tagwrite_lowering (pre suf : List Instr) (v p c : Nat)
    (hpre : ∀ i ∈ pre, i.isIntrinsicCall = false)
    (hsuf : ∀ i ∈ suf, i.isIntrinsicCall = false) :
    lowerIntrinsics c (pre ++ Instr.callTagwrite v p :: suf) =
      pre ++ tagwriteExpansion v p c ++ suf ∧
    objectPtrPtrUnsafeTy = Ty.ptr (Ty.ptr Ty.i8 1) 0 ∧
    (∀ c₀ b v' p', Instr.callTagwrite v' p' ∉ lowerIntrinsics c₀ b) := by
  refine ⟨?_, rfl, fun c₀ b v' p' => no_tagwrite_of_count _ (lowerIntrinsics_count c₀ b) v' p'⟩
  have hcount : intrinsicCount (pre ++ Instr.callTagwrite v p :: suf) = 1 := by
    unfold intrinsicCount
    rw [List.filter_append]
    have h1 : pre.filter Instr.isIntrinsicCall = [] :=
      List.filter_eq_nil_iff.mpr (fun i hi => by rw [hpre i hi]; exact Bool.false_ne_true)
    have h2 : suf.filter Instr.isIntrinsicCall = [] :=
      List.filter_eq_nil_iff.mpr (fun i hi => by rw [hsuf i hi]; exact Bool.false_ne_true)
    simp [h1, h2, List.filter_cons, Instr.isIntrinsicCall]
  unfold lowerIntrinsics
  rw [hcount]
  unfold runRewrites
  rw [tryRewrite_append_clean pre c _ hpre]
  simp only [tryRewrite, Option.map_some]
  unfold runRewrites
  simp [List.append_assoc]

/-- C5 (counterexample to the claim as stated): at the concrete call site
`tagwrite(%1, %2)` the emitted pointer cast targets
`object_ptr_ptr_unsafe_type`, which is an address-space-**0** pointer to an
address-space-1 object pointer — not the claimed address-space-1 pointer. -/
theorem tagwrite_addrspace_counterexample :
    lowerIntrinsics 10 [Instr.callTagwrite 1 2] =
      [Instr.bitcastTo 10 2 int8PtrTy, Instr.gep 11 10 (-1),
       Instr.ptrcast 12 11 objectPtrPtrUnsafeTy, Instr.store 1 12] ∧
    objectPtrPtrUnsafeTy = Ty.ptr (Ty.ptr Ty.i8 1) 0 ∧
    objectPtrPtrUnsafeTy ≠ Ty.ptr (Ty.ptr Ty.i8 1) 1 := by
  refine ⟨rfl, rfl, ?_⟩
  simp [objectPtrPtrUnsafeTy, objectPtrTy]

/-! ### Compare-and-branch fusion -/

/-- C4: when an `InvokeEq/Ge/Gt/Le/Lt` is immediately followed by a
`BranchIfTrueWide`/`BranchIfFalseWide` whose BCI is not a basic-block
leader, the lowerer emits a single fused diamond: the two bytecodes lower
to one `DoInvokeSmiOperation` call whose smi fast path feeds the integer
comparison directly into a conditional branch to the wide branch's targets,
with no true/false materialization (`CreateSelect`) on the fast path, no
phi, and no join block created. -/
theorem compare_branch_fusion (labels : List Nat) (c : CmpKind) (sel : Int)
    (nextBci branchSize : Nat) (delta : Int)
    (hleader : labels.contains nextBci = false) :
    (lowerCompareStep labels c sel nextBci branchSize (Opcode.branchIfTrueWide delta) =
        doInvokeSmiOperation (SmiOpKind.cmp c) sel
          (some (((nextBci : Int) + delta).toNat, nextBci + branchSize))) ∧
    (lowerCompareStep labels c sel nextBci branchSize (Opcode.branchIfFalseWide delta) =
        doInvokeSmiOperation (SmiOpKind.cmp c) sel
          (some (nextBci + branchSize, ((nextBci : Int) + delta).toNat))) ∧
    (∀ t f,
      ((Lbl.gen 2, Ev.condBr (Val.icmp (cmpPred c) (Val.ptr2int (Val.popped 1))
            (Val.ptr2int (Val.popped 0))) (Lbl.bci t) (Lbl.bci f)) ∈
          doInvokeSmiOperation (SmiOpKind.cmp c) sel (some (t, f))) ∧
      (∀ b v, (b, Ev.select v) ∉ doInvokeSmiOperation (SmiOpKind.cmp c) sel (some (t, f))) ∧
      (∀ b v₁ v₂, (b, Ev.phi v₁ v₂) ∉
          doInvokeSmiOperation (SmiOpKind.cmp c) sel (some (t, f))) ∧
      (∀ b, (b, Ev.newBlock (Lbl.gen 4)) ∉
          doInvokeSmiOperation (SmiOpKind.cmp c) sel (some (t, f)))) := by
  have h' : nextBci ∉ labels := by simpa using hleader
  refine ⟨?_, ?_, ?_⟩
  · simp [lowerCompareStep, fusesWithNext, hleader, h']
  · simp [lowerCompareStep, fusesWithNext, hleader, h']
  · intro t f
    refine ⟨?_, ?_, ?_, ?_⟩
    · simp [doInvokeSmiOperation]
    · intro b v
      simp [doInvokeSmiOperation, smiCheck]
    · intro b v₁ v₂
      simp [doInvokeSmiOperation, smiCheck]
    · intro b
      simp [doInvokeSmiOperation, smiCheck]

theorem compare_branch_fusion_witness :
    ([] : List Nat).contains 10 = false ∧
    lowerCompareStep [] CmpKind.clt 7 10 5 (Opcode.branchIfTrueWide 20) =
      doInvokeSmiOperation (SmiOpKind.cmp CmpKind.clt) 7 (some (30, 15)) :=
  ⟨rfl, by
    have h := (compare_branch_fusion [] CmpKind.clt 7 10 5 20 rfl).1
    simpa using h⟩

/-! ### Native invocation -/

/-- C10: the lowering of `InvokeNative`/`InvokeDetachableNative` calls the
native and branches on whether the result's low two bits are both set (a
Failure): the no-failure block immediately returns the native's result from
the enclosing LLIR function; only the failure block continues, pushing the
result of `HandleObjectFromFailure(process, failure)` onto the operand
stack. -/
theorem invoke_native_failure_path (nid arity : Nat) :
    blockEvents (Lbl.gen 2) (doInvokeNative nid arity) =
      [Ev.ret (Val.nativeResult nid)] ∧
    blockEvents (Lbl.gen 1) (doInvokeNative nid arity) =
      [Ev.callHandleObjectFromFailure (Val.nativeResult nid),
       Ev.push (Val.fromFailure (Val.nativeResult nid))] ∧
    ((Lbl.gen 0,
      Ev.condBr (Val.icmp Pred.peq (Val.andInt (Val.ptr2int (Val.nativeResult nid)) 3)
        (Val.intConst 3)) (Lbl.gen 1) (Lbl.gen 2)) ∈ doInvokeNative nid arity) := by
  have hstore : ∀ l : Lbl, l ≠ Lbl.gen 0 →
      ((List.range arity).map fun i => (Lbl.gen 0, Ev.storeArg i)).filter
        (fun q => q.1 = l) = [] := by
    intro l hl
    refine List.filter_eq_nil_iff.mpr ?_
    intro q hq
    obtain ⟨i, _, rfl⟩ := List.mem_map.mp hq
    simp [hl.symm]
  refine ⟨?_, ?_, ?_⟩
  · simp [blockEvents, doInvokeNative, List.filter_append,
      hstore (Lbl.gen 2) (by simp)]
  · simp [blockEvents, doInvokeNative, List.filter_append,
      hstore (Lbl.gen 1) (by simp)]
  · simp [doInvokeNative, failureCheck]

/-! ### Materializer state preservation -/

theorem fnMono_refl (w : World) : FnMono w w := fun _ h => h

theorem fnMono_trans {w1 w2 w3 : World} (h1 : FnMono w1 w2) (h2 : FnMono w2 w3) :
    FnMono w1 w3 := fun x h => h2 x (h1 x h)

theorem buildArrayElems_ok {P : Prog} {rec : BuildRec} (hrec : RecOK P rec) :
    ∀ (es : List Obj) {w : World} {cs : List Const} {w' : World}, Wf P w →
      buildArrayElems rec w es = some (cs, w') → Wf P w' ∧ FnMono w w' := by
  intro es
  induction es with
  | nil =>
      intro w cs w' hw h
      simp only [buildArrayElems, Option.some.injEq, Prod.mk.injEq] at h
      obtain ⟨-, h2⟩ := h
      subst h2
      exact ⟨hw, fnMono_refl w⟩
  | cons o rest ih =>
      intro w cs w' hw h
      cases o with
      | heap a =>
          simp only [buildArrayElems, bind, Option.bind_eq_some] at h
          obtain ⟨⟨c1, w1⟩, h1, h⟩ := h
          obtain ⟨⟨cs1, w2⟩, h2, h⟩ := h
          simp only [Option.some.injEq, Prod.mk.injEq] at h
          obtain ⟨-, h3⟩ := h
          subst h3
          obtain ⟨hw1, hm1⟩ := hrec w _ c1 w1 hw h1
          obtain ⟨hw2, hm2⟩ := ih hw1 h2
          exact ⟨hw2, fnMono_trans hm1 hm2⟩
      | smi v =>
          simp only [buildArrayElems, bind, Option.bind_eq_some] at h
          obtain ⟨⟨cs1, w2⟩, h2, h⟩ := h
          simp only [Option.some.injEq, Prod.mk.injEq] at h
          obtain ⟨-, h3⟩ := h
          subst h3
          exact ih hw h2

theorem buildFieldElems_ok {P : Prog} {rec : BuildRec} (hrec : RecOK P rec) :
    ∀ (es : List Obj) {w : World} {cs : List Const} {w' : World}, Wf P w →
      buildFieldElems rec w es = some (cs, w') → Wf P w' ∧ FnMono w w' := by
  intro es
  induction es with
  | nil =>
      intro w cs w' hw h
      simp only [buildFieldElems, Option.some.injEq, Prod.mk.injEq] at h
      obtain ⟨-, h2⟩ := h
      subst h2
      exact ⟨hw, fnMono_refl w⟩
  | cons o rest ih =>
      intro w cs w' hw h
      simp only [buildFieldElems, bind, Option.bind_eq_some] at h
      obtain ⟨⟨c1, w1⟩, h1, h⟩ := h
      obtain ⟨⟨cs1, w2⟩, h2, h⟩ := h
      simp only [Option.some.injEq, Prod.mk.injEq] at h
      obtain ⟨-, h3⟩ := h
      subst h3
      obtain ⟨hw1, hm1⟩ := hrec w _ c1 w1 hw h1
      obtain ⟨hw2, hm2⟩ := ih hw1 h2
      exact ⟨hw2, fnMono_trans hm1 hm2⟩

theorem buildFunctionConstant_ok {P : Prog} {rec : BuildRec} {w : World}
    {a ka ar : Nat} {c : Const} {w' : World} (hrec : RecOK P rec) (hw : Wf P w)
    (hdesc : P.heap a = some (ObjDesc.func ka ar))
    (h : buildFunctionConstant rec w a ka ar = some (c, w')) :
    Wf P w' ∧ FnMono w w' ∧ w'.llvm_functions a ≠ none := by
  unfold buildFunctionConstant at h
  simp only [World.newGlobal, bind, Option.bind_eq_some] at h
  obtain ⟨⟨kC, w2⟩, h1, h⟩ := h
  simp only [Option.some.injEq, Prod.mk.injEq] at h
  obtain ⟨-, h2⟩ := h
  subst h2
  -- the intermediate state with the declared function registered
  set w1 : World :=
    { w with
      globals := w.globals ++ [⟨w.counter, "Function_" ++ toString a, functionType ar, none⟩],
      counter := w.counter + 1,
      llvm_functions :=
        upd w.llvm_functions a (Const.global w.counter ("Function_" ++ toString a)
          (functionType ar)) } with hw1def
  have hw1 : Wf P w1 := by
    refine ⟨hw.maps, ?_, ?_⟩
    · intro x kx arx hdx
      by_cases hx : x = a
      · rw [hx] at hdx ⊢
        rw [hdesc] at hdx
        obtain ⟨-, harx⟩ := ObjDesc.func.inj (Option.some.inj hdx)
        exact Or.inr ⟨w.counter, "Function_" ++ toString a, by simp [hw1def, upd, ← harx]⟩
      · have hsame : w1.llvm_functions x = w.llvm_functions x := by
          simp [hw1def, upd, hx]
        rw [hsame]
        exact hw.fnTyped x kx arx hdx
    · intro x kx arx hdx hne
      by_cases hx : x = a
      · rw [hx]; simp [hw1def, upd]
      · have hsame : w1.llvm_functions x = w.llvm_functions x := by
          simp [hw1def, upd, hx]
        rw [hsame]
        exact hw.fnDone x kx arx hdx hne
  have hm1 : FnMono w w1 := by
    intro x hne
    by_cases hx : x = a
    · rw [hx]; simp [hw1def, upd]
    · simpa [hw1def, upd, hx] using hne
  obtain ⟨hw2, hm2⟩ := hrec w1 _ kC w2 hw1 h1
  have hllvm : w2.llvm_functions a ≠ none := by
    refine hm2 a ?_
    simp [hw1def, upd]
  exact ⟨⟨hw2.maps, hw2.fnTyped, hw2.fnDone⟩, fnMono_trans hm1 hm2, hllvm⟩

theorem buildClassPointer_ok {P : Prog} {rec : BuildRec} {w : World}
    {a ka : Nat} {c : Const} {w' : World} (hrec : RecOK P rec) (hw : Wf P w)
    (h : buildClassPointer rec w a ka = some (c, w')) : Wf P w' ∧ FnMono w w' := by
  unfold buildClassPointer at h
  by_cases hka : ka = a
  · rw [if_pos hka] at h
    simp only [Option.some.injEq, Prod.mk.injEq] at h
    obtain ⟨-, h2⟩ := h
    subst h2
    exact ⟨hw, fnMono_refl w⟩
  · rw [if_neg hka] at h
    simp only [bind, Option.bind_eq_some] at h
    obtain ⟨⟨c0, w0⟩, h1, h⟩ := h
    simp only [Option.some.injEq, Prod.mk.injEq] at h
    obtain ⟨-, h2⟩ := h
    subst h2
    exact hrec w _ c0 w0 hw h1

theorem buildSuperPointer_ok {P : Prog} {rec : BuildRec} {w : World}
    {su : Option Nat} {c : Const} {w' : World} (hrec : RecOK P rec) (hw : Wf P w)
    (h : buildSuperPointer rec w su = some (c, w')) : Wf P w' ∧ FnMono w w' := by
  cases su with
  | none =>
      simp only [buildSuperPointer, Option.some.injEq, Prod.mk.injEq] at h
      obtain ⟨-, h2⟩ := h
      subst h2
      exact ⟨hw, fnMono_refl w⟩
  | some s => exact hrec w _ c w' hw h

theorem buildMethodsPointer_ok {P : Prog} {rec : BuildRec} {w : World}
    {me : Option Nat} {c : Const} {w' : World} (hrec : RecOK P rec) (hw : Wf P w)
    (h : buildMethodsPointer rec w me = some (c, w')) : Wf P w' ∧ FnMono w w' := by
  cases me with
  | none =>
      simp only [buildMethodsPointer, Option.some.injEq, Prod.mk.injEq] at h
      obtain ⟨-, h2⟩ := h
      subst h2
      exact ⟨hw, fnMono_refl w⟩
  | some m =>
      simp only [buildMethodsPointer, bind, Option.bind_eq_some] at h
      obtain ⟨⟨c0, w0⟩, h1, h⟩ := h
      simp only [Option.some.injEq, Prod.mk.injEq] at h
      obtain ⟨-, h2⟩ := h
      subst h2
      exact hrec w _ c0 w0 hw h1

theorem buildClassConstant_ok {P : Prog} {rec : BuildRec} {w : World}
    {a ka : Nat} {su : Option Nat} {ifo idv cid : Int} {me : Option Nat}
    {c : Const} {w' : World} (hrec : RecOK P rec) (hw : Wf P w)
    (h : buildClassConstant rec w a ka su ifo idv cid me = some (c, w')) :
    Wf P w' ∧ FnMono w w' := by
  unfold buildClassConstant at h
  simp only [bind, Option.bind_eq_some] at h
  obtain ⟨⟨kC, w1⟩, h1, h⟩ := h
  obtain ⟨⟨sC, w2⟩, h2, h⟩ := h
  obtain ⟨⟨mC, w3⟩, h3, h⟩ := h
  simp only [World.newGlobal, Option.some.injEq, Prod.mk.injEq] at h
  obtain ⟨-, h4⟩ := h
  subst h4
  obtain ⟨hwa, hma⟩ := buildClassPointer_ok hrec hw h1
  obtain ⟨hwb, hmb⟩ := buildSuperPointer_ok hrec hwa h2
  obtain ⟨hwc, hmc⟩ := buildMethodsPointer_ok hrec hwb h3
  exact ⟨⟨hwc.maps, hwc.fnTyped, hwc.fnDone⟩,
    fnMono_trans hma (fnMono_trans hmb hmc)⟩

theorem buildArrayConstant_ok {P : Prog} {rec : BuildRec} {w : World}
    {a ka : Nat} {es : List Obj} {c : Const} {w' : World}
    (hrec : RecOK P rec) (hw : Wf P w)
    (h : buildArrayConstant rec w a ka es = some (c, w')) : Wf P w' ∧ FnMono w w' := by
  unfold buildArrayConstant at h
  simp only [bind, Option.bind_eq_some] at h
  obtain ⟨⟨kC, w1⟩, h1, h⟩ := h
  obtain ⟨⟨cs, w2⟩, h2, h⟩ := h
  simp only [World.newGlobal, Option.some.injEq, Prod.mk.injEq] at h
  obtain ⟨-, h3⟩ := h
  subst h3
  obtain ⟨hw1, hm1⟩ := hrec w _ kC w1 hw h1
  obtain ⟨hw2, hm2⟩ := buildArrayElems_ok hrec es hw1 h2
  exact ⟨⟨hw2.maps, hw2.fnTyped, hw2.fnDone⟩, fnMono_trans hm1 hm2⟩

theorem buildByteArrayConstant_ok {P : Prog} {rec : BuildRec} {w : World}
    {a ka : Nat} {bs : List Nat} {c : Const} {w' : World}
    (hrec : RecOK P rec) (hw : Wf P w)
    (h : buildByteArrayConstant rec w a ka bs = some (c, w')) : Wf P w' ∧ FnMono w w' := by
  unfold buildByteArrayConstant at h
  simp only [bind, Option.bind_eq_some] at h
  obtain ⟨⟨kC, w1⟩, h1, h⟩ := h
  simp only [World.newGlobal, Option.some.injEq, Prod.mk.injEq] at h
  obtain ⟨-, h2⟩ := h
  subst h2
  obtain ⟨hw1, hm1⟩ := hrec w _ kC w1 hw h1
  exact ⟨⟨hw1.maps, hw1.fnTyped, hw1.fnDone⟩, hm1⟩

theorem buildInstanceConstant_ok {P : Prog} {rec : BuildRec} {w : World}
    {a ka : Nat} {fl : Int} {fs : List Obj} {k : InstKind} {c : Const} {w' : World}
    (hrec : RecOK P rec) (hw : Wf P w)
    (h : buildInstanceConstant P rec w a ka fl fs k = some (c, w')) :
    Wf P w' ∧ FnMono w w' := by
  unfold buildInstanceConstant at h
  simp only [bind, Option.bind_eq_some] at h
  obtain ⟨⟨kC, w1⟩, h1, h⟩ := h
  obtain ⟨⟨cs, w2⟩, h2, h⟩ := h
  simp only [World.newGlobal, Option.some.injEq, Prod.mk.injEq] at h
  obtain ⟨-, h3⟩ := h
  subst h3
  obtain ⟨hw1, hm1⟩ := hrec w _ kC w1 hw h1
  obtain ⟨hw2, hm2⟩ := buildFieldElems_ok hrec _ hw1 h2
  exact ⟨⟨hw2.maps, hw2.fnTyped, hw2.fnDone⟩, fnMono_trans hm1 hm2⟩

theorem buildDispatchTableEntryConstant_ok {P : Prog} {rec : BuildRec} {w : World}
    {a ka ta : Nat} {off : Obj} {sel : Int} {c : Const} {w' : World}
    (hrec : RecOK P rec) (hw : Wf P w)
    (h : buildDispatchTableEntryConstant rec w a ka ta off sel = some (c, w')) :
    Wf P w' ∧ FnMono w w' := by
  unfold buildDispatchTableEntryConstant at h
  simp only [bind, Option.bind_eq_some] at h
  obtain ⟨⟨kC, w1⟩, h1, h⟩ := h
  obtain ⟨⟨tC, w2⟩, h2, h⟩ := h
  obtain ⟨code, h3, h⟩ := h
  obtain ⟨⟨oC, w3⟩, h4, h⟩ := h
  simp only [World.newGlobal, Option.some.injEq, Prod.mk.injEq] at h
  obtain ⟨-, h5⟩ := h
  subst h5
  obtain ⟨hw1, hm1⟩ := hrec w _ kC w1 hw h1
  obtain ⟨hw2, hm2⟩ := hrec w1 _ tC w2 hw1 h2
  obtain ⟨hw3, hm3⟩ := hrec w2 _ oC w3 hw2 h4
  exact ⟨⟨hw3.maps, hw3.fnTyped, hw3.fnDone⟩,
    fnMono_trans hm1 (fnMono_trans hm2 hm3)⟩

theorem buildInitializerConstant_ok {P : Prog} {rec : BuildRec} {w : World}
    {a ka fa : Nat} {c : Const} {w' : World}
    (hrec : RecOK P rec) (hw : Wf P w)
    (h : buildInitializerConstant rec w a ka fa = some (c, w')) :
    Wf P w' ∧ FnMono w w' := by
  unfold buildInitializerConstant at h
  simp only [bind, Option.bind_eq_some] at h
  obtain ⟨⟨fC, w1⟩, h1, h⟩ := h
  obtain ⟨⟨kC, w2⟩, h2, h⟩ := h
  obtain ⟨code, h3, h⟩ := h
  simp only [World.newGlobal, Option.some.injEq, Prod.mk.injEq] at h
  obtain ⟨-, h4⟩ := h
  subst h4
  obtain ⟨hw1, hm1⟩ := hrec w _ fC w1 hw h1
  obtain ⟨hw2, hm2⟩ := hrec w1 _ kC w2 hw1 h2
  exact ⟨⟨hw2.maps, hw2.fnTyped, hw2.fnDone⟩, fnMono_trans hm1 hm2⟩

theorem buildLargeInteger_ok {P : Prog} {rec : BuildRec} {w : World}
    {v : Int} {c : Const} {w' : World} (hrec : RecOK P rec) (hw : Wf P w)
    (h : buildLargeInteger P rec w v = some (c, w')) : Wf P w' ∧ FnMono w w' := by
  unfold buildLargeInteger at h
  simp only [bind, Option.bind_eq_some] at h
  obtain ⟨⟨kC, w1⟩, h1, h⟩ := h
  simp only [World.newGlobal, Option.some.injEq, Prod.mk.injEq] at h
  obtain ⟨-, h2⟩ := h
  subst h2
  obtain ⟨hw1, hm1⟩ := hrec w _ kC w1 hw h1
  exact ⟨⟨hw1.maps, hw1.fnTyped, hw1.fnDone⟩, hm1⟩

theorem buildDoubleConstant_ok {P : Prog} {rec : BuildRec} {w : World}
    {bits : Int} {c : Const} {w' : World} (hrec : RecOK P rec) (hw : Wf P w)
    (h : buildDoubleConstant P rec w bits = some (c, w')) : Wf P w' ∧ FnMono w w' := by
  unfold buildDoubleConstant at h
  simp only [bind, Option.bind_eq_some] at h
  obtain ⟨⟨kC, w1⟩, h1, h⟩ := h
  simp only [World.newGlobal, Option.some.injEq, Prod.mk.injEq] at h
  obtain ⟨-, h2⟩ := h
  subst h2
  obtain ⟨hw1, hm1⟩ := hrec w _ kC w1 hw h1
  exact ⟨⟨hw1.maps, hw1.fnTyped, hw1.fnDone⟩, hm1⟩

theorem buildOneByteStringConstant_ok {P : Prog} {rec : BuildRec} {w : World}
    {a ka : Nat} {cs : List Nat} {c : Const} {w' : World}
    (hrec : RecOK P rec) (hw : Wf P w)
    (h : buildOneByteStringConstant rec w a ka cs = some (c, w')) :
    Wf P w' ∧ FnMono w w' := by
  unfold buildOneByteStringConstant at h
  simp only [bind, Option.bind_eq_some] at h
  obtain ⟨⟨kC, w1⟩, h1, h⟩ := h
  simp only [World.newGlobal, Option.some.injEq, Prod.mk.injEq] at h
  obtain ⟨-, h2⟩ := h
  subst h2
  obtain ⟨hw1, hm1⟩ := hrec w _ kC w1 hw h1
  exact ⟨⟨hw1.maps, hw1.fnTyped, hw1.fnDone⟩, hm1⟩

/-- The tagging-and-memoization epilogue of `BuildConstant`
(codegen_llvm.cc:210-215) preserves state consistency. -/
theorem finish_ok {P : Prog} {w w2 : World} {a : Nat} {value : Const}
    (hw2 : Wf P w2) (hm2 : FnMono w w2)
    (hfn : ∀ ka ar, P.heap a = some (ObjDesc.func ka ar) →
      w2.llvm_functions a ≠ none) :
    Wf P { w2 with
      untagged_aspace0 := upd w2.untagged_aspace0 a value,
      tagged_aspace1 := upd w2.tagged_aspace1 a (ctag value objectPtrTy),
      tagged_aspace0 := upd w2.tagged_aspace0 a (ctagAS0 value (valueTy value)) } ∧
    FnMono w { w2 with
      untagged_aspace0 := upd w2.untagged_aspace0 a value,
      tagged_aspace1 := upd w2.tagged_aspace1 a (ctag value objectPtrTy),
      tagged_aspace0 := upd w2.tagged_aspace0 a (ctagAS0 value (valueTy value)) } := by
  refine ⟨⟨?_, ?_, ?_⟩, ?_⟩
  · intro x cx hx
    by_cases hxa : x = a
    · rw [hxa] at hx ⊢
      have hcx : ctagAS0 value (valueTy value) = cx := by
        simpa [upd] using hx
      exact ⟨value, valueTy value, by simp [upd], by simp [upd], hcx.symm⟩
    · have hx' : w2.tagged_aspace0 x = some cx := by
        simpa [upd, hxa] using hx
      obtain ⟨v, t, hv1, hv2, hv3⟩ := hw2.maps x cx hx'
      exact ⟨v, t, by simpa [upd, hxa] using hv1,
        by simpa [upd, hxa] using hv2, hv3⟩
  · intro x kx arx hdx
    exact hw2.fnTyped x kx arx hdx
  · intro x kx arx hdx hne
    by_cases hxa : x = a
    · rw [hxa] at hdx ⊢
      exact hfn kx arx hdx
    · have hne' : w2.tagged_aspace0 x ≠ none := by
        simpa [upd, hxa] using hne
      exact hw2.fnDone x kx arx hdx hne'
  · exact hm2

/-- The variant dispatch preserves state consistency; after it, a function
object's LLVM function is declared. -/
theorem buildDispatch_ok {P : Prog} {rec : BuildRec} {w : World} {a : Nat}
    {c : Const} {w' : World} (hrec : RecOK P rec) (hw : Wf P w)
    (h : buildDispatch P rec w a = some (c, w')) :
    Wf P w' ∧ FnMono w w' ∧
    (∀ ka ar, P.heap a = some (ObjDesc.func ka ar) →
      w'.llvm_functions a ≠ none) := by
  unfold buildDispatch at h
  cases hdesc : P.heap a with
  | none =>
      rw [hdesc] at h
      simp only [World.newGlobal, Option.some.injEq, Prod.mk.injEq] at h
      obtain ⟨-, h2⟩ := h
      subst h2
      exact ⟨⟨hw.maps, hw.fnTyped, hw.fnDone⟩, fun _ hx => hx,
        fun ka ar hdx => by simp at hdx⟩
  | some d =>
      cases d with
      | func ka ar =>
          rw [hdesc] at h
          obtain ⟨hwf, hmono, hfn⟩ := buildFunctionConstant_ok hrec hw hdesc h
          exact ⟨hwf, hmono, fun ka' ar' hdx => hfn⟩
      | cls ka su ifo idv cid me nf =>
          rw [hdesc] at h
          obtain ⟨hwf, hmono⟩ := buildClassConstant_ok hrec hw h
          exact ⟨hwf, hmono, fun ka' ar' hdx => by simp at hdx⟩
      | arr ka es =>
          rw [hdesc] at h
          obtain ⟨hwf, hmono⟩ := buildArrayConstant_ok hrec hw h
          exact ⟨hwf, hmono, fun ka' ar' hdx => by simp at hdx⟩
      | byteArr ka bs =>
          rw [hdesc] at h
          obtain ⟨hwf, hmono⟩ := buildByteArrayConstant_ok hrec hw h
          exact ⟨hwf, hmono, fun ka' ar' hdx => by simp at hdx⟩
      | inst ka fl fs k =>
          rw [hdesc] at h
          obtain ⟨hwf, hmono⟩ := buildInstanceConstant_ok hrec hw h
          exact ⟨hwf, hmono, fun ka' ar' hdx => by simp at hdx⟩
      | dte ka ta off sel =>
          rw [hdesc] at h
          obtain ⟨hwf, hmono⟩ := buildDispatchTableEntryConstant_ok hrec hw h
          exact ⟨hwf, hmono, fun ka' ar' hdx => by simp at hdx⟩
      | initzr ka fa =>
          rw [hdesc] at h
          obtain ⟨hwf, hmono⟩ := buildInitializerConstant_ok hrec hw h
          exact ⟨hwf, hmono, fun ka' ar' hdx => by simp at hdx⟩
      | largeInt v =>
          rw [hdesc] at h
          obtain ⟨hwf, hmono⟩ := buildLargeInteger_ok hrec hw h
          exact ⟨hwf, hmono, fun ka' ar' hdx => by simp at hdx⟩
      | dbl bits =>
          rw [hdesc] at h
          obtain ⟨hwf, hmono⟩ := buildDoubleConstant_ok hrec hw h
          exact ⟨hwf, hmono, fun ka' ar' hdx => by simp at hdx⟩
      | obstr ka cs =>
          rw [hdesc] at h
          obtain ⟨hwf, hmono⟩ := buildOneByteStringConstant_ok hrec hw h
          exact ⟨hwf, hmono, fun ka' ar' hdx => by simp at hdx⟩

/-- The recursion of `BuildConstant` preserves state consistency, and
`llvm_functions` only grows. -/
theorem buildConstant_ok (P : Prog) :
    ∀ (fuel : Nat) {w : World} {o : Obj} {c : Const} {w' : World}, Wf P w →
      buildConstant P fuel w o = some (c, w') → Wf P w' ∧ FnMono w w' := by
  intro fuel
  induction fuel with
  | zero =>
      intro w o c w' hw h
      simp [buildConstant] at h
  | succ fuel ih =>
      intro w o c w' hw h
      have hrec : RecOK P (buildConstant P fuel) := fun w o c w' hw h => ih hw h
      cases o with
      | smi v =>
          simp only [buildConstant] at h
          by_cases hv : isValidAsPortable v
          · rw [if_pos hv] at h
            simp only [Option.some.injEq, Prod.mk.injEq] at h
            obtain ⟨-, h2⟩ := h
            subst h2
            exact ⟨hw, fnMono_refl w⟩
          · rw [if_neg hv] at h
            exact buildLargeInteger_ok hrec hw h
      | heap a =>
          simp only [buildConstant] at h
          cases hmemo : w.tagged_aspace0 a with
          | some c0 =>
              rw [hmemo] at h
              simp only [Option.some.injEq, Prod.mk.injEq] at h
              obtain ⟨-, h2⟩ := h
              subst h2
              exact ⟨hw, fnMono_refl w⟩
          | none =>
              rw [hmemo] at h
              simp only [bind, Option.bind_eq_some] at h
              obtain ⟨⟨value, w2⟩, hbuild, hfin⟩ := h
              simp only [Option.some.injEq, Prod.mk.injEq] at hfin
              obtain ⟨-, hfin2⟩ := hfin
              subst hfin2
              obtain ⟨hwf, hmono, hfn⟩ := buildDispatch_ok hrec hw hbuild
              exact finish_ok hwf hmono hfn

/-- After a successful materialization, the object's constant is memoized in
`tagged_aspace0`. -/
theorem buildConstant_memo (P : Prog) (fuel : Nat) {w : World} {a : Nat}
    {c : Const} {w' : World}
    (h : buildConstant P fuel w (Obj.heap a) = some (c, w')) :
    w'.tagged_aspace0 a = some c := by
  cases fuel with
  | zero => simp [buildConstant] at h
  | succ fuel =>
      simp only [buildConstant] at h
      cases hmemo : w.tagged_aspace0 a with
      | some c0 =>
          rw [hmemo] at h
          simp only [Option.some.injEq, Prod.mk.injEq] at h
          obtain ⟨h1, h2⟩ := h
          rw [← h2, ← h1]
          exact hmemo
      | none =>
          rw [hmemo] at h
          simp only [bind, Option.bind_eq_some] at h
          obtain ⟨⟨value, w2⟩, hbuild, hfin⟩ := h
          simp only [Option.some.injEq, Prod.mk.injEq] at hfin
          obtain ⟨hfin1, hfin2⟩ := hfin
          rw [← hfin2, ← hfin1]
          simp [upd]

/-- A memoized object returns its memoized constant without touching the
state. -/
theorem buildConstant_again (P : Prog) (fuel' : Nat) {w' : World} {a : Nat}
    {c : Const} (hmemo : w'.tagged_aspace0 a = some c) :
    buildConstant P (fuel' + 1) w' (Obj.heap a) = some (c, w') := by
  simp only [buildConstant]
  rw [hmemo]

theorem wf_empty (P : Prog) : Wf P emptyWorld := by
  refine ⟨?_, ?_, ?_⟩
  · intro a c h
    simp [emptyWorld] at h
  · intro a ka ar h
    exact Or.inl rfl
  · intro a ka ar h hne
    exact absurd rfl hne

/-- C2: materializing a heap object twice returns the identical constant —
the first visit memoizes it — and the three maps `untagged_aspace0`,
`tagged_aspace0` and `tagged_aspace1` all hold views (untagged, +1-tagged in
address space 0, +1-tagged and cast to address space 1) of that same single
constant. -/
theorem materialize_memoized (P : Prog) (fuel fuel' : Nat) {w : World} {a : Nat}
    {c : Const} {w' : World} (hw : Wf P w)
    (h : buildConstant P fuel w (Obj.heap a) = some (c, w')) :
    buildConstant P (fuel' + 1) w' (Obj.heap a) = some (c, w') ∧
    ∃ v t, w'.untagged_aspace0 a = some v ∧
      w'.tagged_aspace1 a = some (ctag v objectPtrTy) ∧
      w'.tagged_aspace0 a = some (ctagAS0 v t) ∧ c = ctagAS0 v t := by
  have hmemo := buildConstant_memo P fuel h
  have hwf' := (buildConstant_ok P fuel hw h).1
  obtain ⟨v, t, h1, h2, h3⟩ := hwf'.maps a c hmemo
  exact ⟨buildConstant_again P fuel' hmemo, v, t, h1, h2, h3 ▸ hmemo, h3⟩

theorem materialize_memoized_witness :
    ∃ c w', buildConstant metaProg 1 emptyWorld (Obj.heap 3) = some (c, w') ∧
      (buildConstant metaProg 1 w' (Obj.heap 3) = some (c, w') ∧
       ∃ v t, w'.untagged_aspace0 3 = some v ∧
         w'.tagged_aspace1 3 = some (ctag v objectPtrTy) ∧
         w'.tagged_aspace0 3 = some (ctagAS0 v t) ∧ c = ctagAS0 v t) := by
  have hsome : (buildConstant metaProg 1 emptyWorld (Obj.heap 3)).isSome = true := rfl
  obtain ⟨⟨c, w'⟩, hres⟩ := Option.isSome_iff_exists.mp hsome
  exact ⟨c, w', hres, materialize_memoized metaProg 1 0 (wf_empty metaProg) hres⟩

/-- C8: for every input Function of arity `ar`, the LLVM function declared
for it has the type `FunctionType(ar)`: exactly `ar + 1` parameters, the
first being the raw process pointer and the remaining `ar` being
address-space-1 object references, and the return type an address-space-1
object reference. -/
theorem function_signature (P : Prog) (fuel : Nat) {w : World} {a ka ar : Nat}
    {c : Const} {w' : World} (hw : Wf P w)
    (hd : P.heap a = some (ObjDesc.func ka ar))
    (h : buildConstant P fuel w (Obj.heap a) = some (c, w')) :
    (∃ i n, w'.llvm_functions a = some (Const.global i n (functionType ar))) ∧
    ∃ params, functionType ar = Ty.fn params objectPtrTy ∧
      params.length = ar + 1 ∧
      params.head? = some processPtrTy ∧
      ∀ j (hj : j < params.length), 1 ≤ j → params.get ⟨j, hj⟩ = objectPtrTy := by
  have hmemo := buildConstant_memo P fuel h
  have hwf' := (buildConstant_ok P fuel hw h).1
  have hne : w'.tagged_aspace0 a ≠ none := by rw [hmemo]; simp
  have hfn := hwf'.fnDone a ka ar hd hne
  obtain (hnone | htyped) := hwf'.fnTyped a ka ar hd
  · exact absurd hnone hfn
  · refine ⟨htyped, (List.replicate (1 + ar) objectPtrTy).set 0 processPtrTy,
      rfl, ?_, ?_, ?_⟩
    · rw [List.length_set, List.length_replicate, Nat.add_comm]
    · rw [Nat.add_comm 1 ar, List.replicate_succ, List.set_cons_zero]
      rfl
    · intro j hj h1
      have hj0 : (0 : Nat) ≠ j := by omega
      rw [List.get_eq_getElem]
      rw [List.getElem_set_ne hj0, List.getElem_replicate]

theorem function_signature_witness :
    ∃ c w',
      buildConstant funProg 2 emptyWorld (Obj.heap 1) = some (c, w') ∧
      (∃ i n, w'.llvm_functions 1 = some (Const.global i n (functionType 2))) ∧
      ∃ params, functionType 2 = Ty.fn params objectPtrTy ∧
        params.length = 2 + 1 ∧
        params.head? = some processPtrTy ∧
        ∀ j (hj : j < params.length), 1 ≤ j → params.get ⟨j, hj⟩ = objectPtrTy := by
  have hsome : (buildConstant funProg 2 emptyWorld (Obj.heap 1)).isSome = true := rfl
  obtain ⟨⟨c, w'⟩, hres⟩ := Option.isSome_iff_exists.mp hsome
  exact ⟨c, w', hres, function_signature funProg 2 (wf_empty funProg) rfl hres⟩

/-- C7: materializing a class whose class pointer refers to itself (the
metaclass root) terminates without recursing into the class-pointer slot,
and the emitted class constant's class-pointer slot is a null pointer of
class-pointer type; likewise a class without super-class gets a null
super-class slot. -/
theorem metaclass_null_slots (P : Prog) (fuel : Nat) {w : World} {a ka : Nat}
    {su : Option Nat} {ifo idv cid : Int} {me : Option Nat} {nf : Nat}
    {c : Const} {w' : World}
    (hd : P.heap a = some (ObjDesc.cls ka su ifo idv cid me nf))
    (hm : w.tagged_aspace0 a = none)
    (h : buildConstant P (fuel + 1) w (Obj.heap a) = some (c, w')) :
    ∃ klassSlot superC methodsC gd,
      w'.globals.getLast? = some gd ∧
      gd.ty = classTy ∧
      gd.init = some (Const.strct classTy
        [Const.strct heapObjectTy [klassSlot], superC, Const.cint (u32 ifo),
         csmi idv, csmi cid, methodsC]) ∧
      (ka = a → klassSlot = Const.nullval classPtrTy) ∧
      (su = none → superC = Const.nullval classPtrTy) := by
  simp only [buildConstant] at h
  rw [hm] at h
  simp only [bind, Option.bind_eq_some] at h
  obtain ⟨⟨value, w2⟩, hbuild, hfin⟩ := h
  simp only [Option.some.injEq, Prod.mk.injEq] at hfin
  obtain ⟨-, hfin2⟩ := hfin
  subst hfin2
  unfold buildDispatch at hbuild
  rw [hd] at hbuild
  unfold buildClassConstant at hbuild
  simp only [bind, Option.bind_eq_some] at hbuild
  obtain ⟨⟨kC, w1a⟩, h1, hbuild⟩ := hbuild
  obtain ⟨⟨sC, w1b⟩, h2, hbuild⟩ := hbuild
  obtain ⟨⟨mC, w1c⟩, h3, hbuild⟩ := hbuild
  simp only [World.newGlobal, Option.some.injEq, Prod.mk.injEq] at hbuild
  obtain ⟨-, hb2⟩ := hbuild
  subst hb2
  refine ⟨kC, sC, mC,
    ⟨w1c.counter, "Class_" ++ toString a, classTy,
     some (Const.strct classTy
       [Const.strct heapObjectTy [kC], sC, Const.cint (u32 ifo), csmi idv,
        csmi cid, mC])⟩, ?_, rfl, rfl, ?_, ?_⟩
  · simp [List.getLast?_concat]
  · intro hka
    unfold buildClassPointer at h1
    rw [if_pos hka] at h1
    simp only [Option.some.injEq, Prod.mk.injEq] at h1
    obtain ⟨h1a, -⟩ := h1
    rw [← h1a]
    rfl
  · intro hsu
    subst hsu
    unfold buildSuperPointer at h2
    simp only [Option.some.injEq, Prod.mk.injEq] at h2
    obtain ⟨h2a, -⟩ := h2
    rw [← h2a]
    rfl

theorem metaclass_null_slots_witness :
    ∃ c w', buildConstant metaProg 1 emptyWorld (Obj.heap 3) = some (c, w') ∧
      ∃ klassSlot superC methodsC gd,
        w'.globals.getLast? = some gd ∧
        gd.ty = classTy ∧
        gd.init = some (Const.strct classTy
          [Const.strct heapObjectTy [klassSlot], superC, Const.cint (u32 5),
           csmi 1, csmi 2, methodsC]) ∧
        klassSlot = Const.nullval classPtrTy ∧
        superC = Const.nullval classPtrTy := by
  have hsome : (buildConstant metaProg 1 emptyWorld (Obj.heap 3)).isSome = true := rfl
  obtain ⟨⟨c, w'⟩, hres⟩ := Option.isSome_iff_exists.mp hsome
  have hd : metaProg.heap 3 = some (ObjDesc.cls 3 none 5 1 2 none 0) := rfl
  have hm : emptyWorld.tagged_aspace0 3 = none := rfl
  obtain ⟨ks, sc, mc, gd, hg1, hg2, hg3, hk, hs⟩ :=
    metaclass_null_slots metaProg 0 hd hm hres
  exact ⟨c, w', hres, ks, sc, mc, gd, hg1, hg2, hg3, hk rfl, hs rfl⟩

/-- C9: the emitted `FunctionObject` constant stores the constant smi 4 in
its bytecode-size field and the constant smi 0 in its literals-size field,
for every input function — the input's actual bytecode size and literals
count do not appear in the model of the builder at all, mirroring that the
source hard-codes `CSmi(4)` and `CSmi(0)` (codegen_llvm.cc:303-304). -/
theorem function_object_constant_sizes (P : Prog) (fuel : Nat) {w : World}
    {a ka ar : Nat} {c : Const} {w' : World}
    (hd : P.heap a = some (ObjDesc.func ka ar))
    (hm : w.tagged_aspace0 a = none)
    (h : buildConstant P (fuel + 1) w (Obj.heap a) = some (c, w')) :
    ∃ gd flds, w'.globals.getLast? = some gd ∧
      gd.ty = functionStructTy ∧
      gd.init = some (Const.strct functionStructTy flds) ∧
      flds.length = 5 ∧
      flds.get? 1 = some (csmi 4) ∧
      flds.get? 2 = some (csmi 0) ∧
      csmi 4 = Const.cint 8 ∧ csmi 0 = Const.cint 0 := by
  simp only [buildConstant] at h
  rw [hm] at h
  simp only [bind, Option.bind_eq_some] at h
  obtain ⟨⟨value, w2⟩, hbuild, hfin⟩ := h
  simp only [Option.some.injEq, Prod.mk.injEq] at hfin
  obtain ⟨-, hfin2⟩ := hfin
  subst hfin2
  unfold buildDispatch at hbuild
  rw [hd] at hbuild
  unfold buildFunctionConstant at hbuild
  simp only [World.newGlobal, bind, Option.bind_eq_some] at hbuild
  obtain ⟨⟨kC, w1⟩, h1, hbuild⟩ := hbuild
  simp only [Option.some.injEq, Prod.mk.injEq] at hbuild
  obtain ⟨-, hb2⟩ := hbuild
  subst hb2
  refine ⟨⟨w1.counter, "FunctionObject_" ++ toString a, functionStructTy,
    some (Const.strct functionStructTy
      [Const.strct heapObjectTy [kC], csmi 4, csmi 0, csmi ar,
       Const.ptr2int (Const.global w.counter ("Function_" ++ toString a)
         (functionType ar))])⟩,
    [Const.strct heapObjectTy [kC], csmi 4, csmi 0, csmi ar,
     Const.ptr2int (Const.global w.counter ("Function_" ++ toString a)
       (functionType ar))], ?_, rfl, rfl, rfl, rfl, rfl, rfl, rfl⟩
  simp [List.getLast?_concat]

theorem function_object_constant_sizes_witness :
    ∃ c w', buildConstant funProg 2 emptyWorld (Obj.heap 1) = some (c, w') ∧
      ∃ gd flds, w'.globals.getLast? = some gd ∧
        gd.ty = functionStructTy ∧
        gd.init = some (Const.strct functionStructTy flds) ∧
        flds.length = 5 ∧
        flds.get? 1 = some (csmi 4) ∧
        flds.get? 2 = some (csmi 0) ∧
        csmi 4 = Const.cint 8 ∧ csmi 0 = Const.cint 0 := by
  have hsome : (buildConstant funProg 2 emptyWorld (Obj.heap 1)).isSome = true := rfl
  obtain ⟨⟨c, w'⟩, hres⟩ := Option.isSome_iff_exists.mp hsome
  have hd : funProg.heap 1 = some (ObjDesc.func 3 2) := rfl
  have hm : emptyWorld.tagged_aspace0 1 = none := rfl
  exact ⟨c, w', hres, function_object_constant_sizes funProg 1 hd hm hres⟩

/-- C6 (amended): for every Smi input whose value is portable, materialize
returns the tagged immediate — an int-to-pointer constant carrying the smi
encoding of the value, whose low bit is clear — and the state is unchanged:
no global variable is created for it. -/
theorem smi_materialize_immediate (P : Prog) (fuel : Nat) (w : World) (v : Int)
    (hp : isValidAsPortable v = true) :
    buildConstant P (fuel + 1) w (Obj.smi v) =
      some (Const.int2ptr (csmi v) objectPtrAspace0Ty, w) ∧
    ∃ k : Int, csmi v = Const.cint k ∧ k % 2 = 0 := by
  constructor
  · simp only [buildConstant]
    rw [if_pos hp]
  · refine ⟨u32 (2 * u32 v), rfl, ?_⟩
    have h32 : (2 : Int) ^ 32 = 4294967296 := by norm_num
    unfold u32
    rw [h32]
    omega

theorem smi_materialize_immediate_witness :
    buildConstant metaProg 1 emptyWorld (Obj.smi 5) =
      some (Const.int2ptr (csmi 5) objectPtrAspace0Ty, emptyWorld) ∧
    ∃ k : Int, csmi 5 = Const.cint k ∧ k % 2 = 0 :=
  smi_materialize_immediate metaProg 0 emptyWorld 5 rfl

/-- C6 (counterexample to the claim as stated): materializing the Smi
`2^40` — representable in the 64-bit word but not portable — goes through
`BuildLargeInteger` (codegen_llvm.cc:162-164), which creates a
`LargeIntegerObject` global variable (plus its class's global) and returns
a pointer to it, not an int-to-pointer tagged immediate. -/
theorem smi_materialize_counterexample :
    ((buildConstant liProg 2 emptyWorld (Obj.smi (2 ^ 40))).map
        fun r => (r.1, r.2.globals.length)) =
      some (Const.global 1 ("LargeIntegerObject_" ++ toString ((2 : Int) ^ 40))
        largeIntegerTy, 2) ∧
    Const.global 1 ("LargeIntegerObject_" ++ toString ((2 : Int) ^ 40))
        largeIntegerTy ≠ Const.int2ptr (csmi (2 ^ 40)) objectPtrAspace0Ty := by
  constructor
  · rfl
  · simp

theorem tagwrite_lowering_witness :
    lowerIntrinsics 5 [Instr.plain 0, Instr.callTagwrite 1 2, Instr.plain 9] =
      [Instr.plain 0] ++ tagwriteExpansion 1 2 5 ++ [Instr.plain 9] ∧
    objectPtrPtrUnsafeTy = Ty.ptr (Ty.ptr Ty.i8 1) 0 ∧
    (∀ c₀ b v' p', Instr.callTagwrite v' p' ∉ lowerIntrinsics c₀ b) := by
  have h := tagwrite_lowering [Instr.plain 0] [Instr.plain 9] 1 2 5
    (by intro i hi; simp only [List.mem_singleton] at hi; subst hi; rfl)
    (by intro i hi; simp only [List.mem_singleton] at hi; subst hi; rfl)
  simpa using h

end Codegen
